import Mathlib

/-!
Verification of the kamasi music-theory engine.

This file gives a shallow embedding of the core note/interval algebra and
the bitmask search engine of the kamasi repository, and proves or refutes
the specified properties against that embedding.

Conventions of the embedding:
* JS numbers holding validated integers are modelled as `Int`; the `NaN`
  sentinel used for the octave of a pitch class is modelled as `Option Int`
  with `none` playing the role of `NaN`.
* The accidentals string of a note (a run of sharps or a run of flats) is
  modelled by its signed count, exactly the value `accToNum` computes in
  `note.ts` (`numToAcc` / `accToNum` form a bijection between valid
  accidental strings and integers; sharps positive, flats negative).
* `utils.mod` (`mod(a, n, offset) = a - n * floor((a - offset) / n)`) is
  modelled by `jsmod` using `Int.fdiv`, which is floor division.
* Fallible constructors (`validateInterval` and friends throw) are
  modelled with `Except String`.
-/

namespace Kamasi

/-- `utils.mod`: `mod(a, n, offset) = a - n * Math.floor((a - offset) / n)`. -/
def jsmod (a n off : Int) : Int :=
  a - n * ((a - off).fdiv n)

/-- `jsmod` with offset 0 and positive modulus is Euclidean `emod`. -/
theorem jsmod_eq_emod (a : Int) (n : Int) (hn : 0 < n) : jsmod a n 0 = a.emod n := by
  unfold jsmod
  rw [sub_zero, Int.fdiv_eq_ediv _ (le_of_lt hn)]
  exact (Int.emod_def a n).symm

/-- `Math.floor(a / n)` for integers, used via `Int.fdiv`; for a positive
divisor it is Euclidean division. -/
theorem fdiv_eq_ediv_of_pos (a n : Int) (hn : 0 < n) : a.fdiv n = a.ediv n :=
  Int.fdiv_eq_ediv _ (le_of_lt hn)

/-- The 7 note letters (`NOTE_LETTERS` in `note.ts`). -/
inductive Letter : Type
  | C | D | E | F | G | A | B
deriving DecidableEq, Repr

/-- Index of a letter in `NOTE_LETTERS` (`diatonicOffset` of the plain letter). -/
def diatonicIdx : Letter → Int
  | .C => 0 | .D => 1 | .E => 2 | .F => 3 | .G => 4 | .A => 5 | .B => 6

/-- `NOTE_LETTERS[i]` for `i` in `[0, 7)`; out-of-range arguments (which the
source never produces, the index is always reduced `mod 7`) default to `B`. -/
def letterFromIdx : Int → Letter
  | 0 => .C | 1 => .D | 2 => .E | 3 => .F | 4 => .G | 5 => .A | _ => .B

/-- `DEFAULT_NOTE.indexOf(letter)`: the semitone offset of the plain letter. -/
def letterChromatic : Letter → Int
  | .C => 0 | .D => 2 | .E => 4 | .F => 5 | .G => 7 | .A => 9 | .B => 11

theorem diatonicIdx_letterFromIdx (x : Int) (h0 : 0 ≤ x) (h7 : x < 7) :
    diatonicIdx (letterFromIdx x) = x := by
  interval_cases x <;> rfl

/-- A note: letter, signed accidental count, and octave (`none` = the `NaN`
sentinel marking a pitch class). Mirrors the `Note` class of `note.ts`. -/
structure Note : Type where
  letter : Letter
  acc : Int
  octave : Option Int
deriving DecidableEq, Repr

namespace Note

/-- `this.diatonicOffset = NOTE_LETTERS.indexOf(this.letter)`. -/
def diatonicOffset (n : Note) : Int := diatonicIdx n.letter

/-- `this.chromaticOffset = DEFAULT_NOTE.indexOf(this.letter) + accToNum(this.accidentals)`. -/
def chromaticOffset (n : Note) : Int := letterChromatic n.letter + n.acc

/-- `Number.isInteger(this.octave)`. -/
def isPitch (n : Note) : Bool := n.octave.isSome

/-- `!this.isPitch()`. -/
def isPitchClass (n : Note) : Bool := !n.isPitch

end Note

/-- An interval as stored by the `Interval` class of `interval.ts`: the raw
quality string, diatonic number, sign, and the two derived step counts. -/
structure Interval : Type where
  quality : String
  number : Int
  sign : Int
  diatonicSteps : Int
  chromaticSteps : Int
deriving DecidableEq, Repr

namespace Note

/-- `Note.transpose` (`note.ts` lines 137-159), for an `Interval` argument.
New letter and octave come from the diatonic steps alone; the accidentals
compensate so the chromatic target is hit exactly. -/
def transpose (n : Note) (i : Interval) : Note :=
  let diatonicTarget := n.diatonicOffset + i.diatonicSteps
  let newLetter := letterFromIdx (jsmod diatonicTarget 7 0)
  let octaveDiff := diatonicTarget.fdiv 7
  let newOctave := n.octave.map (· + octaveDiff)
  let chromaticTarget := n.chromaticOffset + i.chromaticSteps
  let chromaticMoved := letterChromatic newLetter + 12 * octaveDiff
  { letter := newLetter, acc := chromaticTarget - chromaticMoved, octave := newOctave }

end Note

/-- C1: for every note and every interval, `transpose` chooses the new letter
purely from diatonic steps (index `(diatonicOffset + diatonicSteps) mod 7`,
octave carrying the wraparound `floor((diatonicOffset + diatonicSteps) / 7)`),
and the accidentals are solved so that the resulting chromatic offset plus
12 times the octave carry equals `chromaticOffset + chromaticSteps` exactly. -/
theorem transpose_letter_and_chromatic (n : Note) (i : Interval) :
    diatonicIdx (n.transpose i).letter = (n.diatonicOffset + i.diatonicSteps).emod 7
    ∧ (n.transpose i).chromaticOffset
        + 12 * ((n.diatonicOffset + i.diatonicSteps).fdiv 7)
      = n.chromaticOffset + i.chromaticSteps
    ∧ (n.transpose i).octave
      = n.octave.map (· + (n.diatonicOffset + i.diatonicSteps).fdiv 7) := by
  refine ⟨?_, ?_, rfl⟩
  · show diatonicIdx (letterFromIdx (jsmod (n.diatonicOffset + i.diatonicSteps) 7 0)) = _
    rw [jsmod_eq_emod _ 7 (by norm_num)]
    exact diatonicIdx_letterFromIdx _ (Int.emod_nonneg _ (by norm_num))
      (Int.emod_lt_of_pos _ (by norm_num))
  · simp only [Note.transpose, Note.chromaticOffset]
    ring

/-- `DIATONIC` (`data/intervals`): quality type and semitone count of the C
diatonic scale, indexed by `mod(number - 1, 7)`; out-of-range default matches
the last entry and is never reached. -/
def diatonicEntry : Int → Char × Int
  | 0 => ('P', 0) | 1 => ('M', 2) | 2 => ('M', 4) | 3 => ('P', 5)
  | 4 => ('P', 7) | 5 => ('M', 9) | _ => ('M', 11)

/-- `qualityToSemitoneDiff` of `interval.ts`: semitone adjustment of a quality
string relative to the degree type (`'P'` or `'M'`); throws otherwise.
`quality.length` is written `t.length + 1` inside each arm (the matched
pattern gives `q.data = c :: t`). -/
def qualityToSemitoneDiff (type : Char) (q : String) : Except String Int :=
  if type = 'P' then
    if q = "P" then .ok 0
    else match q.data with
      | 'A' :: t => .ok ((t.length + 1 : Nat) : Int)
      | 'd' :: t => .ok (-((t.length + 1 : Nat) : Int))
      | _ => .error "invalid quality for type"
  else if type = 'M' then
    if q = "M" then .ok 0
    else if q = "m" then .ok (-1)
    else match q.data with
      | 'A' :: t => .ok ((t.length + 1 : Nat) : Int)
      | 'd' :: t => .ok (-((t.length + 1 : Nat) : Int) - 1)
      | _ => .error "invalid quality for type"
  else .error "invalid quality for type"

/-- The test of `validateInterval`'s regex `^[PMm]|[A]+|[d]+$` as JavaScript
evaluates it: the alternation is NOT grouped, so the pattern matches iff the
string starts with `P`, `M` or `m`, or contains an `A` anywhere, or ends
with a `d`. -/
def jsQualityTest (q : String) : Bool :=
  (match q.data with
    | 'P' :: _ => true | 'M' :: _ => true | 'm' :: _ => true | _ => false)
  || q.data.contains 'A'
  || (match q.data.getLast? with | some 'd' => true | _ => false)

/-- `new Interval(quality, number, sign)`: `validateInterval` followed by the
derived-field computation of the constructor body (`interval.ts`). -/
def mkInterval (quality : String) (number : Int) (sign : String) : Except String Interval :=
  if !jsQualityTest quality then .error "quality must be one of P, M, m, A, d"
  else if number < 1 then .error "number must be 1 or higher"
  else if sign ≠ "+" ∧ sign ≠ "-" then .error "direction must be + or -"
  else
    let mainType := (diatonicEntry (jsmod (number - 1) 7 0)).1
    if (mainType = 'P' ∧ quality = "M") ∨ (mainType = 'P' ∧ quality = "m")
        ∨ (mainType = 'M' ∧ quality = "P") then
      .error "not a valid interval"
    else
      let s : Int := if sign = "+" then 1 else -1
      let octaveSteps := 12 * ((number - 1).fdiv 7)
      let mainSteps := (diatonicEntry (jsmod (number - 1) 7 0)).2
      match qualityToSemitoneDiff mainType quality with
      | .error e => .error e
      | .ok qualitySteps =>
        .ok { quality := quality, number := number, sign := s,
              diatonicSteps := s * (number - 1),
              chromaticSteps := s * (octaveSteps + mainSteps + qualitySteps) }

/-- `invertQuality` of `interval.ts`: switch on the first character;
`quality.length` is again `t.length + 1` inside the arms. -/
def invertQuality (q : String) : Except String String :=
  match q.data with
  | 'P' :: _ => .ok "P"
  | 'M' :: _ => .ok "m"
  | 'm' :: _ => .ok "M"
  | 'A' :: t => .ok ⟨List.replicate (t.length + 1) 'd'⟩
  | 'd' :: t => .ok ⟨List.replicate (t.length + 1) 'A'⟩
  | _ => .error "invalid quality"

namespace Interval

/-- `Interval.invert`: `P1` inverts to `P8`, otherwise `9 - mod(number, 7, 2)`,
with the quality inverted and the sign kept. -/
def invert (i : Interval) : Except String Interval :=
  match invertQuality i.quality with
  | .error e => .error e
  | .ok invQ =>
    let invNumber := if i.number = 1 then 8 else 9 - jsmod i.number 7 2
    mkInterval invQ invNumber (if i.sign = 1 then "+" else "-")

end Interval

/-- Decimal digit to character. -/
def digitChar : Nat → Char
  | 8 => '8' | 7 => '7' | 6 => '6' | 5 => '5' | 4 => '4'
  | 3 => '3' | 2 => '2' | 1 => '1' | 0 => '0' | _ => '9'

/-- Character to decimal digit, `none` for a non-digit (the regex class `[0-9]`). -/
def digitVal? : Char → Option Nat
  | '9' => some 9 | '8' => some 8 | '7' => some 7 | '6' => some 6 | '5' => some 5
  | '4' => some 4 | '3' => some 3 | '2' => some 2 | '1' => some 1 | '0' => some 0
  | _ => none

def isDigitCh (c : Char) : Bool := (digitVal? c).isSome

/-- Decimal rendering with explicit fuel (enough fuel is any bound above
the number, as for the fuel-based decimal printer of the Lean core). -/
def natToDecAux : Nat → Nat → List Char
  | 0, _ => []
  | fuel + 1, n =>
    if n < 10 then [digitChar n]
    else natToDecAux fuel (n / 10) ++ [digitChar (n % 10)]

/-- Decimal rendering of a natural number (JS template interpolation of a
non-negative integer). -/
def natToDec (n : Nat) : List Char := natToDecAux (n + 1) n

theorem natToDecAux_fuel : ∀ fuel fuel' n, n < fuel → n < fuel' →
    natToDecAux fuel n = natToDecAux fuel' n := by
  intro fuel
  induction fuel with
  | zero => omega
  | succ f ih =>
    intro fuel' n hf hf'
    rcases fuel' with _ | f'
    · omega
    show (if n < 10 then _ else _) = if n < 10 then _ else _
    by_cases h10 : n < 10
    · rw [if_pos h10, if_pos h10]
    · rw [if_neg h10, if_neg h10]
      have hlt : n / 10 < n := Nat.div_lt_self (by omega) (by norm_num)
      rw [ih f' (n / 10) (by omega) (by omega)]

/-- One unfolding step of `natToDec`. -/
theorem natToDec_step (n : Nat) :
    natToDec n = if n < 10 then [digitChar n]
      else natToDec (n / 10) ++ [digitChar (n % 10)] := by
  show (if n < 10 then _ else natToDecAux n (n / 10) ++ _) = _
  by_cases h10 : n < 10
  · rw [if_pos h10, if_pos h10]
  · rw [if_neg h10, if_neg h10]
    have hlt : n / 10 < n := Nat.div_lt_self (by omega) (by norm_num)
    rw [natToDecAux_fuel n (n / 10 + 1) (n / 10) (by omega) (by omega)]
    rfl

/-- Decimal rendering of an integer (JS template interpolation). -/
def intDec (n : Int) : List Char :=
  if n < 0 then '-' :: natToDec (-n).toNat else natToDec n.toNat

/-- Numeric value of a digit string (JS `parseInt` on an all-digit string). -/
def decValue (l : List Char) : Nat :=
  l.foldl (fun a c => 10 * a + ((digitVal? c).getD 0)) 0

namespace Interval

/-- `Interval.toString`: sign prefix (only `-`), quality, number. -/
def toStr (i : Interval) : String :=
  ⟨(if i.sign = -1 then ['-'] else []) ++ i.quality.data ++ intDec i.number⟩

end Interval

/-- The sign group `([+-]?)` of `Interval.fromString` (`dir || "+"`). -/
def splitSign : List Char → String × List Char
  | '+' :: t => ("+", t)
  | '-' :: t => ("-", t)
  | l => ("+", l)

/-- The quality group `([PMm]|[A]+|[d]+)` of `Interval.fromString`: a single
`P`, `M` or `m`, or a greedy run of `A` or of `d` (the runs are forced,
because what follows must be digits). `none` when no alternative matches. -/
def splitQuality (rest : List Char) : Option (String × List Char) :=
  match rest with
  | 'P' :: t => some ("P", t)
  | 'M' :: t => some ("M", t)
  | 'm' :: t => some ("m", t)
  | 'A' :: _ => some (⟨rest.takeWhile (· == 'A')⟩, rest.dropWhile (· == 'A'))
  | 'd' :: _ => some (⟨rest.takeWhile (· == 'd')⟩, rest.dropWhile (· == 'd'))
  | _ => none

namespace Interval

/-- `Interval.fromString`: the regex `^([+-]?)([PMm]|[A]+|[d]+)([0-9]*)$`
hand-compiled (quality characters and digits are disjoint, so the greedy
runs are forced), followed by the constructor; every constructor failure is
caught and rethrown as the uniform parse error. An empty digit group gives
`parseInt('') = NaN`, which the constructor rejects. -/
def fromStr (s : String) : Except String Interval :=
  let sr := splitSign s.data
  match splitQuality sr.2 with
  | none => .error "not a valid interval"
  | some (q, ds) =>
    if ds.isEmpty then .error "not a valid interval"
    else if ds.all isDigitCh then
      match mkInterval q (decValue ds : Int) sr.1 with
      | .ok i => .ok i
      | .error _ => .error "not a valid interval"
    else .error "not a valid interval"

end Interval

/-- Letter to its character. -/
def letterChar : Letter → Char
  | .C => 'C' | .D => 'D' | .E => 'E' | .F => 'F' | .G => 'G' | .A => 'A' | .B => 'B'

/-- The regex class `[A-G]` of `Note.fromString` (uppercase only). -/
def charToLetter? : Char → Option Letter
  | 'C' => some .C | 'D' => some .D | 'E' => some .E | 'F' => some .F
  | 'G' => some .G | 'A' => some .A | 'B' => some .B | _ => none

/-- `numToAcc`: positive count renders sharps, negative renders flats. -/
def numToAcc (a : Int) : List Char :=
  if a > 0 then List.replicate a.toNat '#' else List.replicate (-a).toNat 'b'

/-- `accToNum`: a leading `b` means flats (negative), else the length. -/
def accToNum (a : List Char) : Int :=
  match a with
  | 'b' :: _ => -(a.length : Int)
  | _ => (a.length : Int)

namespace Note

/-- `Note.toString`: letter, accidentals, and the octave rendered through JS
truthiness (`this.octave || ""`): both `NaN` and octave `0` print nothing. -/
def toStr (n : Note) : String :=
  ⟨letterChar n.letter :: (numToAcc n.acc ++
    (match n.octave with
     | none => []
     | some o => if o = 0 then [] else intDec o))⟩

/-- The octave group `(-?[0-9]?)` of `Note.fromString` followed by `parseInt`:
empty and `-` give `NaN` (a pitch class), one optionally negated digit gives
that octave, anything else fails the regex. -/
def parseOct : List Char → Option (Option Int)
  | [] => some none
  | ['-'] => some none
  | [c] => (digitVal? c).map (fun v => some ((v : Int)))
  | ['-', c] => (digitVal? c).map (fun v => some (-(v : Int)))
  | _ => none

/-- The accidentals group `(#*|b*)` of `Note.fromString`: a greedy run of
`#` or of `b` (forced, since neither may start the octave group). -/
def splitAcc (rest : List Char) : List Char × List Char :=
  match rest with
  | '#' :: _ => (rest.takeWhile (· == '#'), rest.dropWhile (· == '#'))
  | 'b' :: _ => (rest.takeWhile (· == 'b'), rest.dropWhile (· == 'b'))
  | _ => ([], rest)

/-- `Note.fromString`: the regex `^([A-G])(#*|b*)(-?[0-9]?)$` hand-compiled
(the accidental run is forced because `#`, `b` never start the octave group),
then the constructor. -/
def fromStr (s : String) : Except String Note :=
  match s.data with
  | [] => .error "not a valid note"
  | c :: rest =>
    match charToLetter? c with
    | none => .error "not a valid note"
    | some l =>
      let ar := splitAcc rest
      match parseOct ar.2 with
      | none => .error "not a valid note"
      | some oct => .ok { letter := l, acc := accToNum ar.1, octave := oct }

/-- `DEFAULT_NOTE[i]` destructured as letter and accidental count. -/
def defaultNote : Int → Letter × Int
  | 0 => (.C, 0) | 1 => (.C, 1) | 2 => (.D, 0) | 3 => (.D, 1)
  | 4 => (.E, 0) | 5 => (.F, 0) | 6 => (.F, 1) | 7 => (.G, 0)
  | 8 => (.G, 1) | 9 => (.A, 0) | 10 => (.A, 1) | _ => (.B, 0)

/-- `Note.simplify` (`note.ts` lines 165-172): pick the default spelling of
`chromaticOffset mod 12` and carry `floor(chromaticOffset / 12)` into the
octave; the final `octave || NaN` turns octave `0` into the `NaN` sentinel. -/
def simplify (n : Note) : Note :=
  let octave := n.octave.map (· + n.chromaticOffset.fdiv 12)
  let d := defaultNote (jsmod n.chromaticOffset 12 0)
  { letter := d.1, acc := d.2,
    octave := match octave with
      | some o => if o = 0 then none else some o
      | none => none }

/-- `Note.octaveDiff`: throws on mixed kinds; for two pitch classes an
ascending traversal is assumed (offset 1 octave when `from` is higher);
for two pitches the literal octave difference. -/
def octaveDiff (a b : Note) : Except String Int :=
  if a.isPitchClass ≠ b.isPitchClass then
    .error "cannot compare a pitch and a pitch class"
  else if a.isPitchClass then
    .ok (if a.chromaticOffset > b.chromaticOffset then 1 else 0)
  else
    .ok (b.octave.getD 0 - a.octave.getD 0)

/-- `Note.distance`: semitone distance via `octaveDiff`. -/
def distance (a b : Note) : Except String Int :=
  match octaveDiff a b with
  | .error e => .error e
  | .ok od => .ok (b.chromaticOffset - a.chromaticOffset + 12 * od)

/-- `Note.isEnharmonic`: same kind and zero distance. -/
def isEnharmonic (a b : Note) : Bool :=
  a.isPitchClass == b.isPitchClass &&
    (match distance a b with | .ok d => d == 0 | .error _ => false)

end Note

/-- A JavaScript number as needed by `Note.compare`: an integer, an infinity,
or `NaN`. -/
inductive JSNum : Type
  | finite (q : Int)
  | posInf
  | negInf
  | nan
deriving DecidableEq, Repr

namespace JSNum

/-- JS truthiness of a number: `0` and `NaN` are falsy. -/
def truthy : JSNum → Bool
  | .finite q => q ≠ 0
  | .nan => false
  | _ => true

/-- JS subtraction on this fragment: like infinities give `NaN`, `NaN`
propagates. -/
def sub : JSNum → JSNum → JSNum
  | .finite a, .finite b => .finite (a - b)
  | .finite _, .posInf => .negInf
  | .finite _, .negInf => .posInf
  | .posInf, .finite _ => .posInf
  | .negInf, .finite _ => .negInf
  | .posInf, .negInf => .posInf
  | .negInf, .posInf => .negInf
  | _, _ => .nan

/-- JS `x || y`. -/
def orElse (x y : JSNum) : JSNum := if x.truthy then x else y

/-- Negative test used to read off a comparator result. -/
def isNeg : JSNum → Bool
  | .finite q => q < 0
  | .negInf => true
  | _ => false

end JSNum

namespace Note

/-- `this.octave` as a JS number (`NaN` for a pitch class). -/
def octaveKey (n : Note) : JSNum :=
  match n.octave with
  | none => .nan
  | some o => .finite o

/-- `Note.compare` (`note.ts` lines 306-312):
`(a.octave || -Infinity) - (b.octave || -Infinity) || chromatic diff || diatonic diff`.
Note that both `NaN` and octave `0` fall back to `-Infinity`. -/
def compare (a b : Note) : JSNum :=
  ((a.octaveKey.orElse .negInf).sub (b.octaveKey.orElse .negInf)).orElse
    ((JSNum.finite (a.chromaticOffset - b.chromaticOffset)).orElse
      (.finite (a.diatonicOffset - b.diatonicOffset)))

end Note

/-! ### The bitmask search engine (`search.ts` and `data/intervals`) -/

/-- JavaScript `1 << k`: the shift count is taken mod 32.  Bitmask words are
modelled as the unsigned 32-bit pattern of the JS `Int32` value (`|`, `&`,
`~` and `===` on `Int32` correspond exactly to `Nat.lor`, `Nat.land`,
xor with `2^32 - 1` and equality on patterns below `2^32`). -/
def jsShl1 (k : Nat) : Nat := 2 ^ (k % 32)

/-- `INTERVAL_BITMASK` (exact table), with the literal shift amounts of the
source; shifts of 32 and more wrap around as JavaScript evaluates them. -/
def INTERVAL_BITMASK : List (String × Nat) :=
  [("P1", jsShl1 0), ("d2", jsShl1 1),
   ("m2", jsShl1 2), ("A1", jsShl1 3),
   ("M2", jsShl1 4), ("d3", jsShl1 5),
   ("m3", jsShl1 6), ("A2", jsShl1 7),
   ("M3", jsShl1 8), ("d4", jsShl1 9),
   ("P4", jsShl1 10), ("A3", jsShl1 11),
   ("d5", jsShl1 12), ("A4", jsShl1 13),
   ("P5", jsShl1 14), ("d6", jsShl1 15),
   ("m6", jsShl1 16), ("A5", jsShl1 17),
   ("M6", jsShl1 18), ("d7", jsShl1 19),
   ("m7", jsShl1 20), ("A6", jsShl1 21),
   ("M7", jsShl1 22), ("d8", jsShl1 23),
   ("P8", jsShl1 24), ("A7", jsShl1 25), ("d9", jsShl1 26),
   ("m9", jsShl1 27), ("A8", jsShl1 28),
   ("M9", jsShl1 29), ("d10", jsShl1 30),
   ("m10", jsShl1 31), ("A9", jsShl1 32),
   ("M10", jsShl1 33), ("d11", jsShl1 34),
   ("P11", jsShl1 35), ("A10", jsShl1 36),
   ("d12", jsShl1 37), ("A11", jsShl1 38),
   ("P12", jsShl1 39), ("d13", jsShl1 40),
   ("m13", jsShl1 41), ("A12", jsShl1 42),
   ("M13", jsShl1 43), ("d14", jsShl1 44)]

/-- `INTERVAL_BITMASK_ENHARMONIC`: one bit per semitone class. -/
def INTERVAL_BITMASK_ENHARMONIC : List (String × Nat) :=
  [("P1", jsShl1 0), ("d2", jsShl1 0),
   ("m2", jsShl1 1), ("A1", jsShl1 1),
   ("M2", jsShl1 2), ("d3", jsShl1 2),
   ("m3", jsShl1 3), ("A2", jsShl1 3),
   ("M3", jsShl1 4), ("d4", jsShl1 4),
   ("P4", jsShl1 5), ("A3", jsShl1 5),
   ("d5", jsShl1 6), ("A4", jsShl1 6),
   ("P5", jsShl1 7), ("d6", jsShl1 7),
   ("m6", jsShl1 8), ("A5", jsShl1 8),
   ("M6", jsShl1 9), ("d7", jsShl1 9),
   ("m7", jsShl1 10), ("A6", jsShl1 10),
   ("M7", jsShl1 11), ("d8", jsShl1 11),
   ("P8", jsShl1 12), ("A7", jsShl1 12), ("d9", jsShl1 12),
   ("m9", jsShl1 13), ("A8", jsShl1 13),
   ("M9", jsShl1 14), ("d10", jsShl1 14),
   ("m10", jsShl1 15), ("A9", jsShl1 15),
   ("M10", jsShl1 16), ("d11", jsShl1 16),
   ("P11", jsShl1 17), ("A10", jsShl1 17),
   ("d12", jsShl1 18), ("A11", jsShl1 18),
   ("P12", jsShl1 19), ("d13", jsShl1 19),
   ("m13", jsShl1 20), ("A12", jsShl1 20),
   ("M13", jsShl1 21), ("d14", jsShl1 21)]

/-- The table selected by the `enharmonic` flag. -/
def maskTable (enharmonic : Bool) : List (String × Nat) :=
  if enharmonic then INTERVAL_BITMASK_ENHARMONIC else INTERVAL_BITMASK

/-- `bitmask` of `search.ts`: OR together the bits of the members; an unknown
property access yields `undefined`, and `?? 0` contributes nothing. -/
def bitmaskOf (enharmonic : Bool) (intervals : List String) : Nat :=
  intervals.foldl (fun bm cur => bm ||| (((maskTable enharmonic).lookup cur).getD 0)) 0

/-- JS 32-bit `~` on the unsigned-pattern view. -/
def jsNot32 (a : Nat) : Nat := a ^^^ (2 ^ 32 - 1)

/-- The three search filters of `search.ts`. -/
inductive SearchFilter : Type
  | exact | sub | sup
deriving DecidableEq, Repr

/-- `searchFunctions`: exact equality, candidate-subset, candidate-superset. -/
def searchMatch : SearchFilter → Nat → Nat → Bool
  | .exact, a, b => a == b
  | .sub, a, b => (jsNot32 a &&& b) == 0
  | .sup, a, b => (a &&& jsNot32 b) == 0

/-- `loadIndex` followed by `searcher`: build the index of a catalog `db`
(insertion order preserved) and return the names whose bitmask matches the
needle under the filter. -/
def searcher (db : List (String × List String)) (intervals : List String)
    (filter : SearchFilter) (enharmonic : Bool) : List String :=
  let needle := bitmaskOf enharmonic intervals
  ((db.map (fun e => (e.1, bitmaskOf enharmonic e.2))).filter
    (fun c => searchMatch filter needle c.2)).map (fun c => c.1)

/-- `CHORDS` of `data/chords.js` after `Object.assign` flattening, in
insertion order (triads, sixth, seventh, ninth, eleventh, thirteenth,
added-tone, suspended). -/
def CHORDS : List (String × List String) :=
  [("major", ["P1", "M3", "P5"]),
   ("minor", ["P1", "m3", "P5"]),
   ("augmented", ["P1", "M3", "A5"]),
   ("diminished", ["P1", "m3", "d5"]),
   ("major sixth", ["P1", "M3", "P5", "M6"]),
   ("minor sixth", ["P1", "m3", "P5", "M6"]),
   ("dominant seventh", ["P1", "M3", "P5", "m7"]),
   ("major seventh", ["P1", "M3", "P5", "M7"]),
   ("minor seventh", ["P1", "m3", "P5", "m7"]),
   ("minor-major seventh", ["P1", "m3", "P5", "M7"]),
   ("diminished seventh", ["P1", "m3", "d5", "d7"]),
   ("half-diminished seventh", ["P1", "m3", "d5", "m7"]),
   ("augmented seventh", ["P1", "M3", "A5", "m7"]),
   ("augmented major seventh", ["P1", "M3", "A5", "M7"]),
   ("seventh flat five", ["P1", "M3", "d5", "m7"]),
   ("dominant minor ninth", ["P1", "M3", "P5", "m7", "m9"]),
   ("dominant ninth", ["P1", "M3", "P5", "m7", "M9"]),
   ("major ninth", ["P1", "M3", "P5", "M7", "M9"]),
   ("minor ninth", ["P1", "m3", "P5", "m7", "M9"]),
   ("minor-major ninth", ["P1", "m3", "P5", "M7", "M9"]),
   ("diminished minor ninth", ["P1", "m3", "d5", "d7", "m9"]),
   ("diminished ninth", ["P1", "m3", "d5", "d7", "M9"]),
   ("half-diminished minor ninth", ["P1", "m3", "d5", "m7", "m9"]),
   ("half-diminished ninth", ["P1", "m3", "d5", "m7", "M9"]),
   ("augmented dominant ninth", ["P1", "M3", "A5", "m7", "M9"]),
   ("augmented major ninth", ["P1", "M3", "A5", "M7", "M9"]),
   ("eleventh", ["P1", "M3", "P5", "m7", "M9", "P11"]),
   ("major eleventh", ["P1", "M3", "P5", "M7", "M9", "P11"]),
   ("minor eleventh", ["P1", "m3", "P5", "m7", "M9", "P11"]),
   ("minor-major eleventh", ["P1", "m3", "P5", "M7", "M9", "P11"]),
   ("diminished eleventh", ["P1", "m3", "d5", "d7", "M9", "P11"]),
   ("half-diminished eleventh", ["P1", "m3", "d5", "m7", "M9", "P11"]),
   ("augmented eleventh", ["P1", "M3", "A5", "m7", "M9", "P11"]),
   ("augmented major eleventh", ["P1", "M3", "A5", "M7", "M9", "P11"]),
   ("dominant thirtheenth", ["P1", "M3", "P5", "m7", "M9", "M13"]),
   ("thirteenth", ["P1", "M3", "P5", "m7", "M9", "P11", "M13"]),
   ("major thirteenth", ["P1", "M3", "P5", "M7", "M9", "P11", "M13"]),
   ("minor thirteenth", ["P1", "m3", "P5", "m7", "M9", "P11", "M13"]),
   ("minor-major thirteenth", ["P1", "m3", "P5", "M7", "M9", "P11", "M13"]),
   ("half-diminished thirteenth", ["P1", "m3", "d5", "m7", "M9", "P11", "M13"]),
   ("augmented thirteenth", ["P1", "M3", "A5", "m7", "M9", "P11", "M13"]),
   ("augmented major thirteenth", ["P1", "M3", "A5", "M7", "M9", "P11", "M13"]),
   ("mixed-third", ["P1", "M3", "P5", "m3"]),
   ("add fourth", ["P1", "M3", "P5", "P4"]),
   ("add nine", ["P1", "M3", "P5", "M9"]),
   ("seven-six", ["P1", "M3", "P5", "M6", "m7"]),
   ("six-nine", ["P1", "M3", "P5", "M6", "M9"]),
   ("suspended second", ["P1", "M2", "P5"]),
   ("suspended fourth", ["P1", "P4", "P5"]),
   ("suspended jazz", ["P1", "P5", "m7", "M9"])]

/-! ### C3: bit assignment in the exact bitmask table -/

/-- C3: refuted by the code as written: JavaScript `<<` reduces the shift
count mod 32, so the exact table assigns `'A9'` the value `1 << 32 = 1`,
the very same value as `'P1'`.  Distinct notations of the exact table do
NOT all receive distinct single bits. -/
theorem bitmask_exact_collision :
    INTERVAL_BITMASK.lookup "P1" = some 1
    ∧ INTERVAL_BITMASK.lookup "A9" = some 1
    ∧ ("P1" : String) ≠ "A9" := by
  refine ⟨by decide, by decide, by decide⟩

/-! ### C7: quality validation of the interval constructor -/

/-- C7: refuted by the code as written: the alternation in
`validateInterval`'s regex `^[PMm]|[A]+|[d]+$` is not grouped, so the
quality string `"Ad"` (outside `P`, `M`, `m`, `A...`, `d...`) passes
validation (it contains an `A`) and the constructor succeeds, producing an
interval with quality `"Ad"` instead of failing with `InvalidQuality`. -/
theorem mkInterval_accepts_quality_Ad :
    mkInterval "Ad" 5 "+"
      = .ok { quality := "Ad", number := 5, sign := 1,
              diatonicSteps := 4, chromaticSteps := 9 } := by
  rfl

/-! ### C5: simplify on an octave-zero pitch -/

/-- C5: refuted by the code as written: `simplify` rebuilds the note with
`octave || NaN`, and the JS number `0` is falsy, so the pitch `C#0`
simplifies to the pitch class `C#` — the kind is not preserved and the
octave is lost rather than carried. -/
theorem simplify_drops_octave_zero :
    Note.isPitch { letter := .C, acc := 1, octave := some 0 } = true
    ∧ Note.simplify { letter := .C, acc := 1, octave := some 0 }
      = { letter := .C, acc := 1, octave := none }
    ∧ Note.isPitchClass
        (Note.simplify { letter := .C, acc := 1, octave := some 0 }) = true := by
  refine ⟨by decide, by decide, by decide⟩

/-! ### C9: compare on an octave-zero pitch -/

/-- C9: refuted by the code as written: `compare` replaces the octave by
`-Infinity` through JS truthiness (`a.octave || -Infinity`), and the octave
`0` is falsy, so the pitch `C0` gets the same sort key as a pitch class;
the pitch class `D` then compares POSITIVE (2) against the pitch `C0`
instead of negative. -/
theorem compare_pitch_class_not_before_octave_zero_pitch :
    Note.isPitchClass { letter := .D, acc := 0, octave := none } = true
    ∧ Note.isPitch { letter := .C, acc := 0, octave := some 0 } = true
    ∧ Note.compare { letter := .D, acc := 0, octave := none }
        { letter := .C, acc := 0, octave := some 0 } = JSNum.finite 2
    ∧ JSNum.isNeg (JSNum.finite 2) = false := by
  refine ⟨by decide, by decide, by decide, by decide⟩

/-! ### C2: unknown intervals in a search query -/

/-- C2 counterexample: a query containing the unknown notation `"XX"`
together with `P1 M3 P5` still matches the chord `major` exactly — the
result is NOT empty; the unknown notation merely contributes no bit. -/
theorem searcher_unknown_exact_nonempty :
    (maskTable true).lookup "XX" = none
    ∧ searcher CHORDS ["P1", "M3", "P5", "XX"] .exact true = ["major"] := by
  refine ⟨by decide, by decide⟩

/-- An unknown interval contributes no bit to the needle bitmask. -/
theorem bitmaskOf_unknown (enharmonic : Bool) (l₁ l₂ : List String) (u : String)
    (h : (maskTable enharmonic).lookup u = none) :
    bitmaskOf enharmonic (l₁ ++ u :: l₂) = bitmaskOf enharmonic (l₁ ++ l₂) := by
  unfold bitmaskOf
  rw [List.foldl_append, List.foldl_append, List.foldl_cons, h]
  simp

/-- C2 (amended): the search never fails on an unknown interval notation
(the embedding of `searcher` is a total function, as the source reads the
missing table entry with `?? 0`), and the unknown notation contributes
nothing: the result of any query containing it, under every filter and in
both enharmonic modes and for every catalog, equals the result of the same
query with the unknown notation removed.  (The result is therefore not
empty in general.) -/
theorem searcher_ignores_unknown (db : List (String × List String))
    (l₁ l₂ : List String) (u : String) (filter : SearchFilter) (enharmonic : Bool)
    (h : (maskTable enharmonic).lookup u = none) :
    searcher db (l₁ ++ u :: l₂) filter enharmonic
      = searcher db (l₁ ++ l₂) filter enharmonic := by
  unfold searcher
  rw [bitmaskOf_unknown enharmonic l₁ l₂ u h]

/-- Witness for C2's amended theorem at a concrete query. -/
theorem searcher_ignores_unknown_witness :
    (maskTable true).lookup "XX" = none
    ∧ searcher CHORDS (["P1", "M3", "P5"] ++ "XX" :: []) .exact true
      = searcher CHORDS (["P1", "M3", "P5"] ++ []) .exact true :=
  ⟨by decide,
   searcher_ignores_unknown CHORDS ["P1", "M3", "P5"] [] "XX" .exact true (by decide)⟩

/-! ### C6: distance between pitch classes -/

/-- C6 counterexample: with enough accidentals the chromatic offsets of two
pitch classes can differ by more than an octave, and then the one-octave
ascending assumption of `octaveDiff` is not enough: the distance from `B##`
to `Cb` is `-2`, a negative number. -/
theorem distance_pitch_classes_negative :
    Note.isPitchClass { letter := .B, acc := 2, octave := none } = true
    ∧ Note.isPitchClass { letter := .C, acc := -1, octave := none } = true
    ∧ Note.distance { letter := .B, acc := 2, octave := none }
        { letter := .C, acc := -1, octave := none } = .ok (-2)
    ∧ (-2 : Int) < 0 := by
  refine ⟨by decide, by decide, by rfl, by decide⟩

/-- C6 (amended): the distance between two pitch classes is defined (no
mixed-kind failure) and non-negative PROVIDED the first note's chromatic
offset exceeds the second's by at most 12 — which holds for all ordinary
accidental counts but not for arbitrary ones. -/
theorem distance_pitch_classes_nonneg (a b : Note)
    (ha : a.octave = none) (hb : b.octave = none)
    (h : a.chromaticOffset - b.chromaticOffset ≤ 12) :
    ∃ d, Note.distance a b = .ok d ∧ 0 ≤ d := by
  unfold Note.distance Note.octaveDiff
  simp only [Note.isPitchClass, Note.isPitch, ha, hb, Option.isSome_none,
    Bool.not_false, ne_eq, not_true_eq_false, if_false, reduceIte]
  split
  · exact ⟨_, rfl, by omega⟩
  · exact ⟨_, rfl, by omega⟩

/-- Witness for C6's amended theorem: distance from pitch class `C` to `G`. -/
theorem distance_pitch_classes_nonneg_witness :
    (Note.chromaticOffset { letter := .C, acc := 0, octave := none }
      - Note.chromaticOffset { letter := .G, acc := 0, octave := none } ≤ 12)
    ∧ ∃ d, Note.distance { letter := .C, acc := 0, octave := none }
        { letter := .G, acc := 0, octave := none } = .ok d ∧ 0 ≤ d :=
  ⟨by decide,
   distance_pitch_classes_nonneg _ _ rfl rfl (by decide)⟩

/-! ### C10: an octave-zero pitch prints like its pitch class -/

theorem charToLetter_letterChar (l : Letter) : charToLetter? (letterChar l) = some l := by
  cases l <;> rfl

theorem takeWhile_eq_replicate (c : Char) (k : Nat) :
    (List.replicate k c).takeWhile (· == c) = List.replicate k c := by
  induction k with
  | zero => rfl
  | succ k ih => simp [List.replicate_succ, List.takeWhile_cons, ih]

theorem dropWhile_eq_replicate (c : Char) (k : Nat) :
    (List.replicate k c).dropWhile (· == c) = [] := by
  induction k with
  | zero => rfl
  | succ k ih => simp [List.replicate_succ, List.dropWhile_cons, ih]

theorem accToNum_sharps (k : Nat) :
    accToNum (List.replicate (k + 1) '#') = ((k + 1 : Nat) : Int) := by
  rw [List.replicate_succ]
  show accToNum ('#' :: List.replicate k '#') = _
  unfold accToNum
  simp

theorem accToNum_flats (k : Nat) :
    accToNum (List.replicate (k + 1) 'b') = -((k + 1 : Nat) : Int) := by
  rw [List.replicate_succ]
  show accToNum ('b' :: List.replicate k 'b') = _
  unfold accToNum
  simp

theorem splitAcc_sharps (k : Nat) :
    Note.splitAcc (List.replicate (k + 1) '#') = (List.replicate (k + 1) '#', []) := by
  rw [List.replicate_succ]
  show (('#' :: List.replicate k '#').takeWhile (· == '#'),
        ('#' :: List.replicate k '#').dropWhile (· == '#')) = _
  rw [← List.replicate_succ, takeWhile_eq_replicate, dropWhile_eq_replicate]

theorem splitAcc_flats (k : Nat) :
    Note.splitAcc (List.replicate (k + 1) 'b') = (List.replicate (k + 1) 'b', []) := by
  rw [List.replicate_succ]
  show (('b' :: List.replicate k 'b').takeWhile (· == 'b'),
        ('b' :: List.replicate k 'b').dropWhile (· == 'b')) = _
  rw [← List.replicate_succ, takeWhile_eq_replicate, dropWhile_eq_replicate]

/-- C10: for every pitch whose octave is 0, `toString` omits the octave
(JS `octave || ""` treats 0 as falsy): the printed text is exactly that of
the corresponding pitch class, and re-parsing it yields that pitch class
rather than the octave-0 pitch. -/
theorem octave_zero_prints_as_pitch_class (l : Letter) (a : Int) :
    Note.toStr { letter := l, acc := a, octave := some 0 }
      = Note.toStr { letter := l, acc := a, octave := none }
    ∧ Note.fromStr (Note.toStr { letter := l, acc := a, octave := some 0 })
      = .ok { letter := l, acc := a, octave := none } := by
  have hts : Note.toStr { letter := l, acc := a, octave := some 0 }
      = ⟨letterChar l :: numToAcc a⟩ := by
    simp [Note.toStr]
  refine ⟨by simp [Note.toStr], ?_⟩
  rw [hts]
  show Note.fromStr ⟨letterChar l :: numToAcc a⟩ = _
  rcases lt_trichotomy a 0 with hneg | hzero | hpos
  · obtain ⟨k, hk⟩ : ∃ k, (-a).toNat = k + 1 := ⟨(-a).toNat - 1, by omega⟩
    have hacc : numToAcc a = List.replicate (k + 1) 'b' := by
      unfold numToAcc
      rw [if_neg (by omega), hk]
    rw [hacc]
    unfold Note.fromStr
    simp only [charToLetter_letterChar, splitAcc_flats]
    show Except.ok _ = _
    rw [accToNum_flats]
    congr 2
    omega
  · subst hzero
    show Note.fromStr ⟨letterChar l :: []⟩ = _
    unfold Note.fromStr
    simp only [charToLetter_letterChar]
    rfl
  · obtain ⟨k, hk⟩ : ∃ k, a.toNat = k + 1 := ⟨a.toNat - 1, by omega⟩
    have hacc : numToAcc a = List.replicate (k + 1) '#' := by
      unfold numToAcc
      rw [if_pos (by omega), hk]
    rw [hacc]
    unfold Note.fromStr
    simp only [charToLetter_letterChar, splitAcc_sharps]
    show Except.ok _ = _
    rw [accToNum_sharps]
    congr 2
    omega

/-! ### C4: support lemmas about the interval constructor and inversion -/

theorem data_mk (l : List Char) : (⟨l⟩ : String).data = l := rfl

theorem cons_str_ne_single {c c' : Char} {t : List Char} (h : c ≠ c') :
    (⟨c :: t⟩ : String) ≠ ⟨[c']⟩ := by
  intro he
  have hd := congrArg String.data he
  simp only [data_mk] at hd
  exact h (List.cons.injEq .. ▸ hd).1

theorem getLast?_replicate_succ (c : Char) (k : Nat) :
    (List.replicate (k + 1) c).getLast? = some c := by
  induction k with
  | zero => rfl
  | succ k ih =>
    rw [List.replicate_succ]
    rw [List.replicate_succ] at ih ⊢
    rwa [List.getLast?_cons_cons]

theorem jsQualityTest_rep_d (k : Nat) :
    jsQualityTest ⟨List.replicate (k + 1) 'd'⟩ = true := by
  unfold jsQualityTest
  rw [data_mk, getLast?_replicate_succ]
  simp

theorem jsQualityTest_rep_A (k : Nat) :
    jsQualityTest ⟨List.replicate (k + 1) 'A'⟩ = true := by
  unfold jsQualityTest
  rw [data_mk, List.replicate_succ]
  simp

theorem rep_succ_ne_single {c c' : Char} (k : Nat) (h : c ≠ c') :
    (⟨List.replicate (k + 1) c⟩ : String) ≠ ⟨[c']⟩ := by
  rw [List.replicate_succ]
  exact cons_str_ne_single h

theorem q2sd_P_rep_A (k : Nat) :
    qualityToSemitoneDiff 'P' ⟨List.replicate (k + 1) 'A'⟩ = .ok ((k : Int) + 1) := by
  unfold qualityToSemitoneDiff
  rw [if_pos rfl, if_neg (rep_succ_ne_single k (by decide)), data_mk, List.replicate_succ]
  simp

theorem q2sd_P_rep_d (k : Nat) :
    qualityToSemitoneDiff 'P' ⟨List.replicate (k + 1) 'd'⟩ = .ok (-((k : Int) + 1)) := by
  unfold qualityToSemitoneDiff
  rw [if_pos rfl, if_neg (rep_succ_ne_single k (by decide)), data_mk, List.replicate_succ]
  simp

theorem q2sd_M_rep_A (k : Nat) :
    qualityToSemitoneDiff 'M' ⟨List.replicate (k + 1) 'A'⟩ = .ok ((k : Int) + 1) := by
  unfold qualityToSemitoneDiff
  rw [if_neg (by decide), if_pos rfl, if_neg (rep_succ_ne_single k (by decide)),
    if_neg (rep_succ_ne_single k (by decide)), data_mk, List.replicate_succ]
  simp

theorem q2sd_M_rep_d (k : Nat) :
    qualityToSemitoneDiff 'M' ⟨List.replicate (k + 1) 'd'⟩ = .ok (-((k : Int) + 1) - 1) := by
  unfold qualityToSemitoneDiff
  rw [if_neg (by decide), if_pos rfl, if_neg (rep_succ_ne_single k (by decide)),
    if_neg (rep_succ_ne_single k (by decide)), data_mk, List.replicate_succ]
  simp

/-- Success cases of `qualityToSemitoneDiff`. -/
theorem qualityToSemitoneDiff_cases {mt : Char} {q : String} {qd : Int}
    (h : qualityToSemitoneDiff mt q = .ok qd) :
    (mt = 'P' ∧ q = "P" ∧ qd = 0)
    ∨ (mt = 'M' ∧ q = "M" ∧ qd = 0)
    ∨ (mt = 'M' ∧ q = "m" ∧ qd = -1)
    ∨ ((mt = 'P' ∨ mt = 'M') ∧ ∃ t, q.data = 'A' :: t ∧ qd = (t.length : Int) + 1)
    ∨ (mt = 'P' ∧ ∃ t, q.data = 'd' :: t ∧ qd = -((t.length : Int) + 1))
    ∨ (mt = 'M' ∧ ∃ t, q.data = 'd' :: t ∧ qd = -((t.length : Int) + 1) - 1) := by
  unfold qualityToSemitoneDiff at h
  split_ifs at h with h1 h2 h3 h4 h5
  · exact Or.inl ⟨h1, h2, (Except.ok.injEq .. ▸ h).symm⟩
  · split at h
    · rename_i t ht
      refine Or.inr (Or.inr (Or.inr (Or.inl ⟨Or.inl h1, t, ht, ?_⟩)))
      have := (Except.ok.injEq .. ▸ h).symm
      omega
    · rename_i t ht
      refine Or.inr (Or.inr (Or.inr (Or.inr (Or.inl ⟨h1, t, ht, ?_⟩))))
      have := (Except.ok.injEq .. ▸ h).symm
      omega
    · exact absurd h (by simp)
  · exact Or.inr (Or.inl ⟨h3, h4, (Except.ok.injEq .. ▸ h).symm⟩)
  · exact Or.inr (Or.inr (Or.inl ⟨h3, h5, (Except.ok.injEq .. ▸ h).symm⟩))
  · split at h
    · rename_i t ht
      refine Or.inr (Or.inr (Or.inr (Or.inl ⟨Or.inr h3, t, ht, ?_⟩)))
      have := (Except.ok.injEq .. ▸ h).symm
      omega
    · rename_i t ht
      refine Or.inr (Or.inr (Or.inr (Or.inr (Or.inr ⟨h3, t, ht, ?_⟩))))
      have := (Except.ok.injEq .. ▸ h).symm
      omega
    · exact absurd h (by simp)

/-- What a successful `mkInterval` call tells us. -/
theorem mkInterval_ok_elim {q : String} {num : Int} {sg : String} {i : Interval}
    (h : mkInterval q num sg = .ok i) :
    jsQualityTest q = true ∧ 1 ≤ num ∧ (sg = "+" ∨ sg = "-") ∧
    ∃ qd, qualityToSemitoneDiff (diatonicEntry ((num - 1).emod 7)).1 q = .ok qd ∧
      i = { quality := q, number := num,
            sign := if sg = "+" then 1 else -1,
            diatonicSteps := (if sg = "+" then (1 : Int) else -1) * (num - 1),
            chromaticSteps := (if sg = "+" then (1 : Int) else -1) *
              (12 * ((num - 1).fdiv 7) + (diatonicEntry ((num - 1).emod 7)).2 + qd) } := by
  unfold mkInterval at h
  rw [jsmod_eq_emod _ 7 (by norm_num)] at h
  by_cases h1 : jsQualityTest q = true
  swap
  · rw [if_pos (by simp [h1])] at h
    exact absurd h (by simp)
  rw [if_neg (by simp [h1])] at h
  by_cases h2 : num < 1
  · rw [if_pos h2] at h
    exact absurd h (by simp)
  rw [if_neg h2] at h
  by_cases h3 : sg ≠ "+" ∧ sg ≠ "-"
  · rw [if_pos h3] at h
    exact absurd h (by simp)
  rw [if_neg h3] at h
  dsimp only at h
  by_cases h4 : ((diatonicEntry ((num - 1).emod 7)).1 = 'P' ∧ q = "M")
      ∨ ((diatonicEntry ((num - 1).emod 7)).1 = 'P' ∧ q = "m")
      ∨ ((diatonicEntry ((num - 1).emod 7)).1 = 'M' ∧ q = "P")
  · rw [if_pos h4] at h
    exact absurd h (by simp)
  rw [if_neg h4] at h
  refine ⟨h1, by omega, by tauto, ?_⟩
  revert h
  split
  · intro h
    exact absurd h (by simp)
  · rename_i qd hqd
    intro h
    exact ⟨qd, hqd, (Except.ok.injEq .. ▸ h).symm⟩

/-- Sufficient conditions for `mkInterval` to succeed, with the value. -/
theorem mkInterval_eq_ok {q : String} {num : Int} {sg : String}
    (h1 : jsQualityTest q = true) (h2 : 1 ≤ num) (h3 : sg = "+" ∨ sg = "-")
    (h4 : ¬(((diatonicEntry ((num - 1).emod 7)).1 = 'P' ∧ q = "M")
          ∨ ((diatonicEntry ((num - 1).emod 7)).1 = 'P' ∧ q = "m")
          ∨ ((diatonicEntry ((num - 1).emod 7)).1 = 'M' ∧ q = "P")))
    {qd : Int}
    (hqd : qualityToSemitoneDiff (diatonicEntry ((num - 1).emod 7)).1 q = .ok qd) :
    mkInterval q num sg =
      .ok { quality := q, number := num,
            sign := if sg = "+" then 1 else -1,
            diatonicSteps := (if sg = "+" then (1 : Int) else -1) * (num - 1),
            chromaticSteps := (if sg = "+" then (1 : Int) else -1) *
              (12 * ((num - 1).fdiv 7) + (diatonicEntry ((num - 1).emod 7)).2 + qd) } := by
  unfold mkInterval
  rw [jsmod_eq_emod _ 7 (by norm_num), h1]
  rw [if_neg (by simp), if_neg (by omega), if_neg (by tauto), if_neg h4, hqd]

theorem emod_eq_mod (a b : Int) : a.emod b = a % b := rfl

theorem ediv_eq_div (a b : Int) : a.ediv b = a / b := rfl

/-- `mod(a, 7, 2)` in terms of Euclidean remainder. -/
theorem jsmod_off2 (a : Int) : jsmod a 7 2 = (a - 2).emod 7 + 2 := by
  unfold jsmod
  rw [fdiv_eq_ediv_of_pos _ 7 (by norm_num)]
  simp only [emod_eq_mod, ediv_eq_div]
  omega

/-- Equality on `Except` values is decidable when it is on both components. -/
instance exceptDecEq {e a : Type} [DecidableEq e] [DecidableEq a] :
    DecidableEq (Except e a) := fun x y =>
  match x, y with
  | .ok v, .ok w =>
    if h : v = w then .isTrue (h ▸ rfl) else .isFalse (fun he => h (Except.ok.inj he))
  | .error v, .error w =>
    if h : v = w then .isTrue (h ▸ rfl) else .isFalse (fun he => h (Except.error.inj he))
  | .ok _, .error _ => .isFalse (fun he => Except.noConfusion he)
  | .error _, .ok _ => .isFalse (fun he => Except.noConfusion he)

/-- `mkInterval_eq_ok` specialised to an ascending sign. -/
theorem mkInterval_eq_ok_plus {q : String} {num : Int}
    (h1 : jsQualityTest q = true) (h2 : 1 ≤ num)
    (h4 : ¬(((diatonicEntry ((num - 1).emod 7)).1 = 'P' ∧ q = "M")
          ∨ ((diatonicEntry ((num - 1).emod 7)).1 = 'P' ∧ q = "m")
          ∨ ((diatonicEntry ((num - 1).emod 7)).1 = 'M' ∧ q = "P")))
    (qd : Int)
    (hqd : qualityToSemitoneDiff (diatonicEntry ((num - 1).emod 7)).1 q = .ok qd) :
    mkInterval q num "+" =
      .ok { quality := q, number := num, sign := 1,
            diatonicSteps := num - 1,
            chromaticSteps :=
              12 * ((num - 1).fdiv 7) + (diatonicEntry ((num - 1).emod 7)).2 + qd } := by
  have h := mkInterval_eq_ok h1 h2 (Or.inl rfl) h4 hqd
  simpa using h

/-- `mkInterval_eq_ok` specialised to a descending sign. -/
theorem mkInterval_eq_ok_minus {q : String} {num : Int}
    (h1 : jsQualityTest q = true) (h2 : 1 ≤ num)
    (h4 : ¬(((diatonicEntry ((num - 1).emod 7)).1 = 'P' ∧ q = "M")
          ∨ ((diatonicEntry ((num - 1).emod 7)).1 = 'P' ∧ q = "m")
          ∨ ((diatonicEntry ((num - 1).emod 7)).1 = 'M' ∧ q = "P")))
    (qd : Int)
    (hqd : qualityToSemitoneDiff (diatonicEntry ((num - 1).emod 7)).1 q = .ok qd) :
    mkInterval q num "-" =
      .ok { quality := q, number := num, sign := -1,
            diatonicSteps := -(num - 1),
            chromaticSteps :=
              -(12 * ((num - 1).fdiv 7) + (diatonicEntry ((num - 1).emod 7)).2 + qd) } := by
  have h := mkInterval_eq_ok h1 h2 (Or.inr rfl) h4 hqd
  simpa using h

/-- Core of the inversion round trip: for every quality/number pair the
constructor accepts, `invertQuality` succeeds, the inverted interval is
constructible, and the diatonic and chromatic steps of the two intervals
sum to `7 K` and `12 K` for one and the same whole number of octaves `K`. -/
theorem invert_core (q : String) (num : Int) (sg' : String) (s : Int)
    (hs : (sg' = "+" ∧ s = 1) ∨ (sg' = "-" ∧ s = -1)) (hnum : 1 ≤ num) (qd : Int)
    (hqd : qualityToSemitoneDiff (diatonicEntry ((num - 1).emod 7)).1 q = .ok qd) :
    ∃ q' i' K,
      invertQuality q = .ok q'
      ∧ mkInterval q' (if num = 1 then 8 else 9 - jsmod num 7 2) sg' = .ok i'
      ∧ s * (num - 1) + i'.diatonicSteps = 7 * (s * K)
      ∧ s * (12 * ((num - 1).fdiv 7) + (diatonicEntry ((num - 1).emod 7)).2 + qd)
          + i'.chromaticSteps
        = 12 * (s * K) := by
  have hfd : (num - 1).fdiv 7 = (num - 1) / 7 := fdiv_eq_ediv_of_pos _ 7 (by norm_num)
  obtain ⟨r, hr, hr0, hr7⟩ : ∃ r, (num - 1).emod 7 = r ∧ 0 ≤ r ∧ r < 7 :=
    ⟨_, rfl, Int.emod_nonneg _ (by norm_num), Int.emod_lt_of_pos _ (by norm_num)⟩
  have hrm : (num - 1) % 7 = r := hr
  rw [hr] at hqd ⊢
  rw [hfd]
  rcases qualityToSemitoneDiff_cases hqd with
    ⟨hmt, rfl, rfl⟩ | ⟨hmt, rfl, rfl⟩ | ⟨hmt, rfl, rfl⟩
    | ⟨hmt, t, ht, rfl⟩ | ⟨hmt, t, ht, rfl⟩ | ⟨hmt, t, ht, rfl⟩
  · -- quality "P", Perfect-type degree: r is 0, 3 or 4
    interval_cases r
    · by_cases hn1 : num = 1
      · subst hn1
        rw [if_pos rfl]
        rcases hs with ⟨rfl, rfl⟩ | ⟨rfl, rfl⟩
        · refine ⟨"P", ⟨"P", 8, 1, 7, 12⟩, 1, rfl, by decide, ?_, ?_⟩
          · dsimp only
            omega
          · dsimp only
            simp only [show (diatonicEntry (0 : Int)).2 = 0 from by decide]
            omega
        · refine ⟨"P", ⟨"P", 8, -1, -7, -12⟩, 1, rfl, by decide, ?_, ?_⟩
          · dsimp only
            omega
          · dsimp only
            simp only [show (diatonicEntry (0 : Int)).2 = 0 from by decide]
            omega
      · have hNl : 9 - jsmod num 7 2 = 1 := by rw [jsmod_off2, emod_eq_mod]; omega
        rw [if_neg hn1, hNl]
        rcases hs with ⟨rfl, rfl⟩ | ⟨rfl, rfl⟩
        · refine ⟨"P", ⟨"P", 1, 1, 0, 0⟩, (num - 1) / 7, rfl, by decide, ?_, ?_⟩
          · dsimp only
            omega
          · dsimp only
            simp only [show (diatonicEntry (0 : Int)).2 = 0 from by decide]
            omega
        · refine ⟨"P", ⟨"P", 1, -1, 0, 0⟩, (num - 1) / 7, rfl, by decide, ?_, ?_⟩
          · dsimp only
            omega
          · dsimp only
            simp only [show (diatonicEntry (0 : Int)).2 = 0 from by decide]
            omega
    · exact absurd hmt (by decide)
    · exact absurd hmt (by decide)
    · have hn1 : num ≠ 1 := by omega
      have hNl : 9 - jsmod num 7 2 = 5 := by rw [jsmod_off2, emod_eq_mod]; omega
      rw [if_neg hn1, hNl]
      rcases hs with ⟨rfl, rfl⟩ | ⟨rfl, rfl⟩
      · refine ⟨"P", ⟨"P", 5, 1, 4, 7⟩, (num - 1) / 7 + 1, rfl, by decide, ?_, ?_⟩
        · dsimp only
          omega
        · dsimp only
          simp only [show (diatonicEntry (3 : Int)).2 = 5 from by decide]
          omega
      · refine ⟨"P", ⟨"P", 5, -1, -4, -7⟩, (num - 1) / 7 + 1, rfl, by decide, ?_, ?_⟩
        · dsimp only
          omega
        · dsimp only
          simp only [show (diatonicEntry (3 : Int)).2 = 5 from by decide]
          omega
    · have hn1 : num ≠ 1 := by omega
      have hNl : 9 - jsmod num 7 2 = 4 := by rw [jsmod_off2, emod_eq_mod]; omega
      rw [if_neg hn1, hNl]
      rcases hs with ⟨rfl, rfl⟩ | ⟨rfl, rfl⟩
      · refine ⟨"P", ⟨"P", 4, 1, 3, 5⟩, (num - 1) / 7 + 1, rfl, by decide, ?_, ?_⟩
        · dsimp only
          omega
        · dsimp only
          simp only [show (diatonicEntry (4 : Int)).2 = 7 from by decide]
          omega
      · refine ⟨"P", ⟨"P", 4, -1, -3, -5⟩, (num - 1) / 7 + 1, rfl, by decide, ?_, ?_⟩
        · dsimp only
          omega
        · dsimp only
          simp only [show (diatonicEntry (4 : Int)).2 = 7 from by decide]
          omega
    · exact absurd hmt (by decide)
    · exact absurd hmt (by decide)
  · -- quality "M", Major-type degree
    interval_cases r
    · exact absurd hmt (by decide)
    · have hn1 : num ≠ 1 := by omega
      have hNl : 9 - jsmod num 7 2 = 7 := by rw [jsmod_off2, emod_eq_mod]; omega
      rw [if_neg hn1, hNl]
      rcases hs with ⟨rfl, rfl⟩ | ⟨rfl, rfl⟩
      · refine ⟨"m", ⟨"m", 7, 1, 6, 10⟩, (num - 1) / 7 + 1, rfl, by decide, ?_, ?_⟩
        · dsimp only
          omega
        · dsimp only
          simp only [show (diatonicEntry (1 : Int)).2 = 2 from by decide]
          omega
      · refine ⟨"m", ⟨"m", 7, -1, -6, -10⟩, (num - 1) / 7 + 1, rfl, by decide, ?_, ?_⟩
        · dsimp only
          omega
        · dsimp only
          simp only [show (diatonicEntry (1 : Int)).2 = 2 from by decide]
          omega
    · have hn1 : num ≠ 1 := by omega
      have hNl : 9 - jsmod num 7 2 = 6 := by rw [jsmod_off2, emod_eq_mod]; omega
      rw [if_neg hn1, hNl]
      rcases hs with ⟨rfl, rfl⟩ | ⟨rfl, rfl⟩
      · refine ⟨"m", ⟨"m", 6, 1, 5, 8⟩, (num - 1) / 7 + 1, rfl, by decide, ?_, ?_⟩
        · dsimp only
          omega
        · dsimp only
          simp only [show (diatonicEntry (2 : Int)).2 = 4 from by decide]
          omega
      · refine ⟨"m", ⟨"m", 6, -1, -5, -8⟩, (num - 1) / 7 + 1, rfl, by decide, ?_, ?_⟩
        · dsimp only
          omega
        · dsimp only
          simp only [show (diatonicEntry (2 : Int)).2 = 4 from by decide]
          omega
    · exact absurd hmt (by decide)
    · exact absurd hmt (by decide)
    · have hn1 : num ≠ 1 := by omega
      have hNl : 9 - jsmod num 7 2 = 3 := by rw [jsmod_off2, emod_eq_mod]; omega
      rw [if_neg hn1, hNl]
      rcases hs with ⟨rfl, rfl⟩ | ⟨rfl, rfl⟩
      · refine ⟨"m", ⟨"m", 3, 1, 2, 3⟩, (num - 1) / 7 + 1, rfl, by decide, ?_, ?_⟩
        · dsimp only
          omega
        · dsimp only
          simp only [show (diatonicEntry (5 : Int)).2 = 9 from by decide]
          omega
      · refine ⟨"m", ⟨"m", 3, -1, -2, -3⟩, (num - 1) / 7 + 1, rfl, by decide, ?_, ?_⟩
        · dsimp only
          omega
        · dsimp only
          simp only [show (diatonicEntry (5 : Int)).2 = 9 from by decide]
          omega
    · have hn1 : num ≠ 1 := by omega
      have hNl : 9 - jsmod num 7 2 = 2 := by rw [jsmod_off2, emod_eq_mod]; omega
      rw [if_neg hn1, hNl]
      rcases hs with ⟨rfl, rfl⟩ | ⟨rfl, rfl⟩
      · refine ⟨"m", ⟨"m", 2, 1, 1, 1⟩, (num - 1) / 7 + 1, rfl, by decide, ?_, ?_⟩
        · dsimp only
          omega
        · dsimp only
          simp only [show (diatonicEntry (6 : Int)).2 = 11 from by decide]
          omega
      · refine ⟨"m", ⟨"m", 2, -1, -1, -1⟩, (num - 1) / 7 + 1, rfl, by decide, ?_, ?_⟩
        · dsimp only
          omega
        · dsimp only
          simp only [show (diatonicEntry (6 : Int)).2 = 11 from by decide]
          omega
  · -- quality "m", Major-type degree
    interval_cases r
    · exact absurd hmt (by decide)
    · have hn1 : num ≠ 1 := by omega
      have hNl : 9 - jsmod num 7 2 = 7 := by rw [jsmod_off2, emod_eq_mod]; omega
      rw [if_neg hn1, hNl]
      rcases hs with ⟨rfl, rfl⟩ | ⟨rfl, rfl⟩
      · refine ⟨"M", ⟨"M", 7, 1, 6, 11⟩, (num - 1) / 7 + 1, rfl, by decide, ?_, ?_⟩
        · dsimp only
          omega
        · dsimp only
          simp only [show (diatonicEntry (1 : Int)).2 = 2 from by decide]
          omega
      · refine ⟨"M", ⟨"M", 7, -1, -6, -11⟩, (num - 1) / 7 + 1, rfl, by decide, ?_, ?_⟩
        · dsimp only
          omega
        · dsimp only
          simp only [show (diatonicEntry (1 : Int)).2 = 2 from by decide]
          omega
    · have hn1 : num ≠ 1 := by omega
      have hNl : 9 - jsmod num 7 2 = 6 := by rw [jsmod_off2, emod_eq_mod]; omega
      rw [if_neg hn1, hNl]
      rcases hs with ⟨rfl, rfl⟩ | ⟨rfl, rfl⟩
      · refine ⟨"M", ⟨"M", 6, 1, 5, 9⟩, (num - 1) / 7 + 1, rfl, by decide, ?_, ?_⟩
        · dsimp only
          omega
        · dsimp only
          simp only [show (diatonicEntry (2 : Int)).2 = 4 from by decide]
          omega
      · refine ⟨"M", ⟨"M", 6, -1, -5, -9⟩, (num - 1) / 7 + 1, rfl, by decide, ?_, ?_⟩
        · dsimp only
          omega
        · dsimp only
          simp only [show (diatonicEntry (2 : Int)).2 = 4 from by decide]
          omega
    · exact absurd hmt (by decide)
    · exact absurd hmt (by decide)
    · have hn1 : num ≠ 1 := by omega
      have hNl : 9 - jsmod num 7 2 = 3 := by rw [jsmod_off2, emod_eq_mod]; omega
      rw [if_neg hn1, hNl]
      rcases hs with ⟨rfl, rfl⟩ | ⟨rfl, rfl⟩
      · refine ⟨"M", ⟨"M", 3, 1, 2, 4⟩, (num - 1) / 7 + 1, rfl, by decide, ?_, ?_⟩
        · dsimp only
          omega
        · dsimp only
          simp only [show (diatonicEntry (5 : Int)).2 = 9 from by decide]
          omega
      · refine ⟨"M", ⟨"M", 3, -1, -2, -4⟩, (num - 1) / 7 + 1, rfl, by decide, ?_, ?_⟩
        · dsimp only
          omega
        · dsimp only
          simp only [show (diatonicEntry (5 : Int)).2 = 9 from by decide]
          omega
    · have hn1 : num ≠ 1 := by omega
      have hNl : 9 - jsmod num 7 2 = 2 := by rw [jsmod_off2, emod_eq_mod]; omega
      rw [if_neg hn1, hNl]
      rcases hs with ⟨rfl, rfl⟩ | ⟨rfl, rfl⟩
      · refine ⟨"M", ⟨"M", 2, 1, 1, 2⟩, (num - 1) / 7 + 1, rfl, by decide, ?_, ?_⟩
        · dsimp only
          omega
        · dsimp only
          simp only [show (diatonicEntry (6 : Int)).2 = 11 from by decide]
          omega
      · refine ⟨"M", ⟨"M", 2, -1, -1, -2⟩, (num - 1) / 7 + 1, rfl, by decide, ?_, ?_⟩
        · dsimp only
          omega
        · dsimp only
          simp only [show (diatonicEntry (6 : Int)).2 = 11 from by decide]
          omega
  · -- an augmented run, any degree
    interval_cases r
    · have hinv : invertQuality q = .ok ⟨List.replicate (t.length + 1) 'd'⟩ := by
        unfold invertQuality
        rw [ht]
        rfl
      by_cases hn1 : num = 1
      · subst hn1
        rw [if_pos rfl]
        rcases hs with ⟨rfl, rfl⟩ | ⟨rfl, rfl⟩
        · refine ⟨_, _, 1, hinv,
            mkInterval_eq_ok_plus (jsQualityTest_rep_d t.length) (by norm_num)
              (by rintro (⟨_, hX⟩ | ⟨_, hX⟩ | ⟨_, hX⟩) <;>
                exact absurd hX (rep_succ_ne_single _ (by decide)))
              ((-((t.length : Int) + 1)))
              (by rw [show (diatonicEntry (((8 : Int) - 1).emod 7)).1 = 'P' from by decide]
                  exact q2sd_P_rep_d t.length), ?_, ?_⟩
          · dsimp only
            omega
          · dsimp only
            simp only [show (((8 : Int) - 1)).fdiv 7 = 1 from by decide,
              show (diatonicEntry (((8 : Int) - 1).emod 7)).2 = 0 from by decide,
              show (diatonicEntry (0 : Int)).2 = 0 from by decide]
            omega
        · refine ⟨_, _, 1, hinv,
            mkInterval_eq_ok_minus (jsQualityTest_rep_d t.length) (by norm_num)
              (by rintro (⟨_, hX⟩ | ⟨_, hX⟩ | ⟨_, hX⟩) <;>
                exact absurd hX (rep_succ_ne_single _ (by decide)))
              ((-((t.length : Int) + 1)))
              (by rw [show (diatonicEntry (((8 : Int) - 1).emod 7)).1 = 'P' from by decide]
                  exact q2sd_P_rep_d t.length), ?_, ?_⟩
          · dsimp only
            omega
          · dsimp only
            simp only [show (((8 : Int) - 1)).fdiv 7 = 1 from by decide,
              show (diatonicEntry (((8 : Int) - 1).emod 7)).2 = 0 from by decide,
              show (diatonicEntry (0 : Int)).2 = 0 from by decide]
            omega
      · have hNl : 9 - jsmod num 7 2 = 1 := by rw [jsmod_off2, emod_eq_mod]; omega
        rw [if_neg hn1, hNl]
        rcases hs with ⟨rfl, rfl⟩ | ⟨rfl, rfl⟩
        · refine ⟨_, _, (num - 1) / 7, hinv,
            mkInterval_eq_ok_plus (jsQualityTest_rep_d t.length) (by norm_num)
              (by rintro (⟨_, hX⟩ | ⟨_, hX⟩ | ⟨_, hX⟩) <;>
                exact absurd hX (rep_succ_ne_single _ (by decide)))
              ((-((t.length : Int) + 1)))
              (by rw [show (diatonicEntry (((1 : Int) - 1).emod 7)).1 = 'P' from by decide]
                  exact q2sd_P_rep_d t.length), ?_, ?_⟩
          · dsimp only
            omega
          · dsimp only
            simp only [show (((1 : Int) - 1)).fdiv 7 = 0 from by decide,
              show (diatonicEntry (((1 : Int) - 1).emod 7)).2 = 0 from by decide,
              show (diatonicEntry (0 : Int)).2 = 0 from by decide]
            omega
        · refine ⟨_, _, (num - 1) / 7, hinv,
            mkInterval_eq_ok_minus (jsQualityTest_rep_d t.length) (by norm_num)
              (by rintro (⟨_, hX⟩ | ⟨_, hX⟩ | ⟨_, hX⟩) <;>
                exact absurd hX (rep_succ_ne_single _ (by decide)))
              ((-((t.length : Int) + 1)))
              (by rw [show (diatonicEntry (((1 : Int) - 1).emod 7)).1 = 'P' from by decide]
                  exact q2sd_P_rep_d t.length), ?_, ?_⟩
          · dsimp only
            omega
          · dsimp only
            simp only [show (((1 : Int) - 1)).fdiv 7 = 0 from by decide,
              show (diatonicEntry (((1 : Int) - 1).emod 7)).2 = 0 from by decide,
              show (diatonicEntry (0 : Int)).2 = 0 from by decide]
            omega
    · have hn1 : num ≠ 1 := by omega
      have hNl : 9 - jsmod num 7 2 = 7 := by rw [jsmod_off2, emod_eq_mod]; omega
      rw [if_neg hn1, hNl]
      have hinv : invertQuality q = .ok ⟨List.replicate (t.length + 1) 'd'⟩ := by
        unfold invertQuality
        rw [ht]
        rfl
      rcases hs with ⟨rfl, rfl⟩ | ⟨rfl, rfl⟩
      · refine ⟨_, _, (num - 1) / 7 + 1, hinv,
          mkInterval_eq_ok_plus (jsQualityTest_rep_d t.length) (by norm_num)
            (by rintro (⟨_, hX⟩ | ⟨_, hX⟩ | ⟨_, hX⟩) <;>
              exact absurd hX (rep_succ_ne_single _ (by decide)))
            ((-((t.length : Int) + 1) - 1))
            (by rw [show (diatonicEntry (((7 : Int) - 1).emod 7)).1 = 'M' from by decide]
                exact q2sd_M_rep_d t.length), ?_, ?_⟩
        · dsimp only
          omega
        · dsimp only
          simp only [show (((7 : Int) - 1)).fdiv 7 = 0 from by decide,
            show (diatonicEntry (((7 : Int) - 1).emod 7)).2 = 11 from by decide,
            show (diatonicEntry (1 : Int)).2 = 2 from by decide]
          omega
      · refine ⟨_, _, (num - 1) / 7 + 1, hinv,
          mkInterval_eq_ok_minus (jsQualityTest_rep_d t.length) (by norm_num)
            (by rintro (⟨_, hX⟩ | ⟨_, hX⟩ | ⟨_, hX⟩) <;>
              exact absurd hX (rep_succ_ne_single _ (by decide)))
            ((-((t.length : Int) + 1) - 1))
            (by rw [show (diatonicEntry (((7 : Int) - 1).emod 7)).1 = 'M' from by decide]
                exact q2sd_M_rep_d t.length), ?_, ?_⟩
        · dsimp only
          omega
        · dsimp only
          simp only [show (((7 : Int) - 1)).fdiv 7 = 0 from by decide,
            show (diatonicEntry (((7 : Int) - 1).emod 7)).2 = 11 from by decide,
            show (diatonicEntry (1 : Int)).2 = 2 from by decide]
          omega
    · have hn1 : num ≠ 1 := by omega
      have hNl : 9 - jsmod num 7 2 = 6 := by rw [jsmod_off2, emod_eq_mod]; omega
      rw [if_neg hn1, hNl]
      have hinv : invertQuality q = .ok ⟨List.replicate (t.length + 1) 'd'⟩ := by
        unfold invertQuality
        rw [ht]
        rfl
      rcases hs with ⟨rfl, rfl⟩ | ⟨rfl, rfl⟩
      · refine ⟨_, _, (num - 1) / 7 + 1, hinv,
          mkInterval_eq_ok_plus (jsQualityTest_rep_d t.length) (by norm_num)
            (by rintro (⟨_, hX⟩ | ⟨_, hX⟩ | ⟨_, hX⟩) <;>
              exact absurd hX (rep_succ_ne_single _ (by decide)))
            ((-((t.length : Int) + 1) - 1))
            (by rw [show (diatonicEntry (((6 : Int) - 1).emod 7)).1 = 'M' from by decide]
                exact q2sd_M_rep_d t.length), ?_, ?_⟩
        · dsimp only
          omega
        · dsimp only
          simp only [show (((6 : Int) - 1)).fdiv 7 = 0 from by decide,
            show (diatonicEntry (((6 : Int) - 1).emod 7)).2 = 9 from by decide,
            show (diatonicEntry (2 : Int)).2 = 4 from by decide]
          omega
      · refine ⟨_, _, (num - 1) / 7 + 1, hinv,
          mkInterval_eq_ok_minus (jsQualityTest_rep_d t.length) (by norm_num)
            (by rintro (⟨_, hX⟩ | ⟨_, hX⟩ | ⟨_, hX⟩) <;>
              exact absurd hX (rep_succ_ne_single _ (by decide)))
            ((-((t.length : Int) + 1) - 1))
            (by rw [show (diatonicEntry (((6 : Int) - 1).emod 7)).1 = 'M' from by decide]
                exact q2sd_M_rep_d t.length), ?_, ?_⟩
        · dsimp only
          omega
        · dsimp only
          simp only [show (((6 : Int) - 1)).fdiv 7 = 0 from by decide,
            show (diatonicEntry (((6 : Int) - 1).emod 7)).2 = 9 from by decide,
            show (diatonicEntry (2 : Int)).2 = 4 from by decide]
          omega
    · have hn1 : num ≠ 1 := by omega
      have hNl : 9 - jsmod num 7 2 = 5 := by rw [jsmod_off2, emod_eq_mod]; omega
      rw [if_neg hn1, hNl]
      have hinv : invertQuality q = .ok ⟨List.replicate (t.length + 1) 'd'⟩ := by
        unfold invertQuality
        rw [ht]
        rfl
      rcases hs with ⟨rfl, rfl⟩ | ⟨rfl, rfl⟩
      · refine ⟨_, _, (num - 1) / 7 + 1, hinv,
          mkInterval_eq_ok_plus (jsQualityTest_rep_d t.length) (by norm_num)
            (by rintro (⟨_, hX⟩ | ⟨_, hX⟩ | ⟨_, hX⟩) <;>
              exact absurd hX (rep_succ_ne_single _ (by decide)))
            ((-((t.length : Int) + 1)))
            (by rw [show (diatonicEntry (((5 : Int) - 1).emod 7)).1 = 'P' from by decide]
                exact q2sd_P_rep_d t.length), ?_, ?_⟩
        · dsimp only
          omega
        · dsimp only
          simp only [show (((5 : Int) - 1)).fdiv 7 = 0 from by decide,
            show (diatonicEntry (((5 : Int) - 1).emod 7)).2 = 7 from by decide,
            show (diatonicEntry (3 : Int)).2 = 5 from by decide]
          omega
      · refine ⟨_, _, (num - 1) / 7 + 1, hinv,
          mkInterval_eq_ok_minus (jsQualityTest_rep_d t.length) (by norm_num)
            (by rintro (⟨_, hX⟩ | ⟨_, hX⟩ | ⟨_, hX⟩) <;>
              exact absurd hX (rep_succ_ne_single _ (by decide)))
            ((-((t.length : Int) + 1)))
            (by rw [show (diatonicEntry (((5 : Int) - 1).emod 7)).1 = 'P' from by decide]
                exact q2sd_P_rep_d t.length), ?_, ?_⟩
        · dsimp only
          omega
        · dsimp only
          simp only [show (((5 : Int) - 1)).fdiv 7 = 0 from by decide,
            show (diatonicEntry (((5 : Int) - 1).emod 7)).2 = 7 from by decide,
            show (diatonicEntry (3 : Int)).2 = 5 from by decide]
          omega
    · have hn1 : num ≠ 1 := by omega
      have hNl : 9 - jsmod num 7 2 = 4 := by rw [jsmod_off2, emod_eq_mod]; omega
      rw [if_neg hn1, hNl]
      have hinv : invertQuality q = .ok ⟨List.replicate (t.length + 1) 'd'⟩ := by
        unfold invertQuality
        rw [ht]
        rfl
      rcases hs with ⟨rfl, rfl⟩ | ⟨rfl, rfl⟩
      · refine ⟨_, _, (num - 1) / 7 + 1, hinv,
          mkInterval_eq_ok_plus (jsQualityTest_rep_d t.length) (by norm_num)
            (by rintro (⟨_, hX⟩ | ⟨_, hX⟩ | ⟨_, hX⟩) <;>
              exact absurd hX (rep_succ_ne_single _ (by decide)))
            ((-((t.length : Int) + 1)))
            (by rw [show (diatonicEntry (((4 : Int) - 1).emod 7)).1 = 'P' from by decide]
                exact q2sd_P_rep_d t.length), ?_, ?_⟩
        · dsimp only
          omega
        · dsimp only
          simp only [show (((4 : Int) - 1)).fdiv 7 = 0 from by decide,
            show (diatonicEntry (((4 : Int) - 1).emod 7)).2 = 5 from by decide,
            show (diatonicEntry (4 : Int)).2 = 7 from by decide]
          omega
      · refine ⟨_, _, (num - 1) / 7 + 1, hinv,
          mkInterval_eq_ok_minus (jsQualityTest_rep_d t.length) (by norm_num)
            (by rintro (⟨_, hX⟩ | ⟨_, hX⟩ | ⟨_, hX⟩) <;>
              exact absurd hX (rep_succ_ne_single _ (by decide)))
            ((-((t.length : Int) + 1)))
            (by rw [show (diatonicEntry (((4 : Int) - 1).emod 7)).1 = 'P' from by decide]
                exact q2sd_P_rep_d t.length), ?_, ?_⟩
        · dsimp only
          omega
        · dsimp only
          simp only [show (((4 : Int) - 1)).fdiv 7 = 0 from by decide,
            show (diatonicEntry (((4 : Int) - 1).emod 7)).2 = 5 from by decide,
            show (diatonicEntry (4 : Int)).2 = 7 from by decide]
          omega
    · have hn1 : num ≠ 1 := by omega
      have hNl : 9 - jsmod num 7 2 = 3 := by rw [jsmod_off2, emod_eq_mod]; omega
      rw [if_neg hn1, hNl]
      have hinv : invertQuality q = .ok ⟨List.replicate (t.length + 1) 'd'⟩ := by
        unfold invertQuality
        rw [ht]
        rfl
      rcases hs with ⟨rfl, rfl⟩ | ⟨rfl, rfl⟩
      · refine ⟨_, _, (num - 1) / 7 + 1, hinv,
          mkInterval_eq_ok_plus (jsQualityTest_rep_d t.length) (by norm_num)
            (by rintro (⟨_, hX⟩ | ⟨_, hX⟩ | ⟨_, hX⟩) <;>
              exact absurd hX (rep_succ_ne_single _ (by decide)))
            ((-((t.length : Int) + 1) - 1))
            (by rw [show (diatonicEntry (((3 : Int) - 1).emod 7)).1 = 'M' from by decide]
                exact q2sd_M_rep_d t.length), ?_, ?_⟩
        · dsimp only
          omega
        · dsimp only
          simp only [show (((3 : Int) - 1)).fdiv 7 = 0 from by decide,
            show (diatonicEntry (((3 : Int) - 1).emod 7)).2 = 4 from by decide,
            show (diatonicEntry (5 : Int)).2 = 9 from by decide]
          omega
      · refine ⟨_, _, (num - 1) / 7 + 1, hinv,
          mkInterval_eq_ok_minus (jsQualityTest_rep_d t.length) (by norm_num)
            (by rintro (⟨_, hX⟩ | ⟨_, hX⟩ | ⟨_, hX⟩) <;>
              exact absurd hX (rep_succ_ne_single _ (by decide)))
            ((-((t.length : Int) + 1) - 1))
            (by rw [show (diatonicEntry (((3 : Int) - 1).emod 7)).1 = 'M' from by decide]
                exact q2sd_M_rep_d t.length), ?_, ?_⟩
        · dsimp only
          omega
        · dsimp only
          simp only [show (((3 : Int) - 1)).fdiv 7 = 0 from by decide,
            show (diatonicEntry (((3 : Int) - 1).emod 7)).2 = 4 from by decide,
            show (diatonicEntry (5 : Int)).2 = 9 from by decide]
          omega
    · have hn1 : num ≠ 1 := by omega
      have hNl : 9 - jsmod num 7 2 = 2 := by rw [jsmod_off2, emod_eq_mod]; omega
      rw [if_neg hn1, hNl]
      have hinv : invertQuality q = .ok ⟨List.replicate (t.length + 1) 'd'⟩ := by
        unfold invertQuality
        rw [ht]
        rfl
      rcases hs with ⟨rfl, rfl⟩ | ⟨rfl, rfl⟩
      · refine ⟨_, _, (num - 1) / 7 + 1, hinv,
          mkInterval_eq_ok_plus (jsQualityTest_rep_d t.length) (by norm_num)
            (by rintro (⟨_, hX⟩ | ⟨_, hX⟩ | ⟨_, hX⟩) <;>
              exact absurd hX (rep_succ_ne_single _ (by decide)))
            ((-((t.length : Int) + 1) - 1))
            (by rw [show (diatonicEntry (((2 : Int) - 1).emod 7)).1 = 'M' from by decide]
                exact q2sd_M_rep_d t.length), ?_, ?_⟩
        · dsimp only
          omega
        · dsimp only
          simp only [show (((2 : Int) - 1)).fdiv 7 = 0 from by decide,
            show (diatonicEntry (((2 : Int) - 1).emod 7)).2 = 2 from by decide,
            show (diatonicEntry (6 : Int)).2 = 11 from by decide]
          omega
      · refine ⟨_, _, (num - 1) / 7 + 1, hinv,
          mkInterval_eq_ok_minus (jsQualityTest_rep_d t.length) (by norm_num)
            (by rintro (⟨_, hX⟩ | ⟨_, hX⟩ | ⟨_, hX⟩) <;>
              exact absurd hX (rep_succ_ne_single _ (by decide)))
            ((-((t.length : Int) + 1) - 1))
            (by rw [show (diatonicEntry (((2 : Int) - 1).emod 7)).1 = 'M' from by decide]
                exact q2sd_M_rep_d t.length), ?_, ?_⟩
        · dsimp only
          omega
        · dsimp only
          simp only [show (((2 : Int) - 1)).fdiv 7 = 0 from by decide,
            show (diatonicEntry (((2 : Int) - 1).emod 7)).2 = 2 from by decide,
            show (diatonicEntry (6 : Int)).2 = 11 from by decide]
          omega
  · -- a diminished run on a Perfect-type degree
    interval_cases r
    · have hinv : invertQuality q = .ok ⟨List.replicate (t.length + 1) 'A'⟩ := by
        unfold invertQuality
        rw [ht]
        rfl
      by_cases hn1 : num = 1
      · subst hn1
        rw [if_pos rfl]
        rcases hs with ⟨rfl, rfl⟩ | ⟨rfl, rfl⟩
        · refine ⟨_, _, 1, hinv,
            mkInterval_eq_ok_plus (jsQualityTest_rep_A t.length) (by norm_num)
              (by rintro (⟨_, hX⟩ | ⟨_, hX⟩ | ⟨_, hX⟩) <;>
                exact absurd hX (rep_succ_ne_single _ (by decide)))
              (((t.length : Int) + 1))
              (by rw [show (diatonicEntry (((8 : Int) - 1).emod 7)).1 = 'P' from by decide]
                  exact q2sd_P_rep_A t.length), ?_, ?_⟩
          · dsimp only
            omega
          · dsimp only
            simp only [show (((8 : Int) - 1)).fdiv 7 = 1 from by decide,
              show (diatonicEntry (((8 : Int) - 1).emod 7)).2 = 0 from by decide,
              show (diatonicEntry (0 : Int)).2 = 0 from by decide]
            omega
        · refine ⟨_, _, 1, hinv,
            mkInterval_eq_ok_minus (jsQualityTest_rep_A t.length) (by norm_num)
              (by rintro (⟨_, hX⟩ | ⟨_, hX⟩ | ⟨_, hX⟩) <;>
                exact absurd hX (rep_succ_ne_single _ (by decide)))
              (((t.length : Int) + 1))
              (by rw [show (diatonicEntry (((8 : Int) - 1).emod 7)).1 = 'P' from by decide]
                  exact q2sd_P_rep_A t.length), ?_, ?_⟩
          · dsimp only
            omega
          · dsimp only
            simp only [show (((8 : Int) - 1)).fdiv 7 = 1 from by decide,
              show (diatonicEntry (((8 : Int) - 1).emod 7)).2 = 0 from by decide,
              show (diatonicEntry (0 : Int)).2 = 0 from by decide]
            omega
      · have hNl : 9 - jsmod num 7 2 = 1 := by rw [jsmod_off2, emod_eq_mod]; omega
        rw [if_neg hn1, hNl]
        rcases hs with ⟨rfl, rfl⟩ | ⟨rfl, rfl⟩
        · refine ⟨_, _, (num - 1) / 7, hinv,
            mkInterval_eq_ok_plus (jsQualityTest_rep_A t.length) (by norm_num)
              (by rintro (⟨_, hX⟩ | ⟨_, hX⟩ | ⟨_, hX⟩) <;>
                exact absurd hX (rep_succ_ne_single _ (by decide)))
              (((t.length : Int) + 1))
              (by rw [show (diatonicEntry (((1 : Int) - 1).emod 7)).1 = 'P' from by decide]
                  exact q2sd_P_rep_A t.length), ?_, ?_⟩
          · dsimp only
            omega
          · dsimp only
            simp only [show (((1 : Int) - 1)).fdiv 7 = 0 from by decide,
              show (diatonicEntry (((1 : Int) - 1).emod 7)).2 = 0 from by decide,
              show (diatonicEntry (0 : Int)).2 = 0 from by decide]
            omega
        · refine ⟨_, _, (num - 1) / 7, hinv,
            mkInterval_eq_ok_minus (jsQualityTest_rep_A t.length) (by norm_num)
              (by rintro (⟨_, hX⟩ | ⟨_, hX⟩ | ⟨_, hX⟩) <;>
                exact absurd hX (rep_succ_ne_single _ (by decide)))
              (((t.length : Int) + 1))
              (by rw [show (diatonicEntry (((1 : Int) - 1).emod 7)).1 = 'P' from by decide]
                  exact q2sd_P_rep_A t.length), ?_, ?_⟩
          · dsimp only
            omega
          · dsimp only
            simp only [show (((1 : Int) - 1)).fdiv 7 = 0 from by decide,
              show (diatonicEntry (((1 : Int) - 1).emod 7)).2 = 0 from by decide,
              show (diatonicEntry (0 : Int)).2 = 0 from by decide]
            omega
    · exact absurd hmt (by decide)
    · exact absurd hmt (by decide)
    · have hn1 : num ≠ 1 := by omega
      have hNl : 9 - jsmod num 7 2 = 5 := by rw [jsmod_off2, emod_eq_mod]; omega
      rw [if_neg hn1, hNl]
      have hinv : invertQuality q = .ok ⟨List.replicate (t.length + 1) 'A'⟩ := by
        unfold invertQuality
        rw [ht]
        rfl
      rcases hs with ⟨rfl, rfl⟩ | ⟨rfl, rfl⟩
      · refine ⟨_, _, (num - 1) / 7 + 1, hinv,
          mkInterval_eq_ok_plus (jsQualityTest_rep_A t.length) (by norm_num)
            (by rintro (⟨_, hX⟩ | ⟨_, hX⟩ | ⟨_, hX⟩) <;>
              exact absurd hX (rep_succ_ne_single _ (by decide)))
            (((t.length : Int) + 1))
            (by rw [show (diatonicEntry (((5 : Int) - 1).emod 7)).1 = 'P' from by decide]
                exact q2sd_P_rep_A t.length), ?_, ?_⟩
        · dsimp only
          omega
        · dsimp only
          simp only [show (((5 : Int) - 1)).fdiv 7 = 0 from by decide,
            show (diatonicEntry (((5 : Int) - 1).emod 7)).2 = 7 from by decide,
            show (diatonicEntry (3 : Int)).2 = 5 from by decide]
          omega
      · refine ⟨_, _, (num - 1) / 7 + 1, hinv,
          mkInterval_eq_ok_minus (jsQualityTest_rep_A t.length) (by norm_num)
            (by rintro (⟨_, hX⟩ | ⟨_, hX⟩ | ⟨_, hX⟩) <;>
              exact absurd hX (rep_succ_ne_single _ (by decide)))
            (((t.length : Int) + 1))
            (by rw [show (diatonicEntry (((5 : Int) - 1).emod 7)).1 = 'P' from by decide]
                exact q2sd_P_rep_A t.length), ?_, ?_⟩
        · dsimp only
          omega
        · dsimp only
          simp only [show (((5 : Int) - 1)).fdiv 7 = 0 from by decide,
            show (diatonicEntry (((5 : Int) - 1).emod 7)).2 = 7 from by decide,
            show (diatonicEntry (3 : Int)).2 = 5 from by decide]
          omega
    · have hn1 : num ≠ 1 := by omega
      have hNl : 9 - jsmod num 7 2 = 4 := by rw [jsmod_off2, emod_eq_mod]; omega
      rw [if_neg hn1, hNl]
      have hinv : invertQuality q = .ok ⟨List.replicate (t.length + 1) 'A'⟩ := by
        unfold invertQuality
        rw [ht]
        rfl
      rcases hs with ⟨rfl, rfl⟩ | ⟨rfl, rfl⟩
      · refine ⟨_, _, (num - 1) / 7 + 1, hinv,
          mkInterval_eq_ok_plus (jsQualityTest_rep_A t.length) (by norm_num)
            (by rintro (⟨_, hX⟩ | ⟨_, hX⟩ | ⟨_, hX⟩) <;>
              exact absurd hX (rep_succ_ne_single _ (by decide)))
            (((t.length : Int) + 1))
            (by rw [show (diatonicEntry (((4 : Int) - 1).emod 7)).1 = 'P' from by decide]
                exact q2sd_P_rep_A t.length), ?_, ?_⟩
        · dsimp only
          omega
        · dsimp only
          simp only [show (((4 : Int) - 1)).fdiv 7 = 0 from by decide,
            show (diatonicEntry (((4 : Int) - 1).emod 7)).2 = 5 from by decide,
            show (diatonicEntry (4 : Int)).2 = 7 from by decide]
          omega
      · refine ⟨_, _, (num - 1) / 7 + 1, hinv,
          mkInterval_eq_ok_minus (jsQualityTest_rep_A t.length) (by norm_num)
            (by rintro (⟨_, hX⟩ | ⟨_, hX⟩ | ⟨_, hX⟩) <;>
              exact absurd hX (rep_succ_ne_single _ (by decide)))
            (((t.length : Int) + 1))
            (by rw [show (diatonicEntry (((4 : Int) - 1).emod 7)).1 = 'P' from by decide]
                exact q2sd_P_rep_A t.length), ?_, ?_⟩
        · dsimp only
          omega
        · dsimp only
          simp only [show (((4 : Int) - 1)).fdiv 7 = 0 from by decide,
            show (diatonicEntry (((4 : Int) - 1).emod 7)).2 = 5 from by decide,
            show (diatonicEntry (4 : Int)).2 = 7 from by decide]
          omega
    · exact absurd hmt (by decide)
    · exact absurd hmt (by decide)
  · -- a diminished run on a Major-type degree
    interval_cases r
    · exact absurd hmt (by decide)
    · have hn1 : num ≠ 1 := by omega
      have hNl : 9 - jsmod num 7 2 = 7 := by rw [jsmod_off2, emod_eq_mod]; omega
      rw [if_neg hn1, hNl]
      have hinv : invertQuality q = .ok ⟨List.replicate (t.length + 1) 'A'⟩ := by
        unfold invertQuality
        rw [ht]
        rfl
      rcases hs with ⟨rfl, rfl⟩ | ⟨rfl, rfl⟩
      · refine ⟨_, _, (num - 1) / 7 + 1, hinv,
          mkInterval_eq_ok_plus (jsQualityTest_rep_A t.length) (by norm_num)
            (by rintro (⟨_, hX⟩ | ⟨_, hX⟩ | ⟨_, hX⟩) <;>
              exact absurd hX (rep_succ_ne_single _ (by decide)))
            (((t.length : Int) + 1))
            (by rw [show (diatonicEntry (((7 : Int) - 1).emod 7)).1 = 'M' from by decide]
                exact q2sd_M_rep_A t.length), ?_, ?_⟩
        · dsimp only
          omega
        · dsimp only
          simp only [show (((7 : Int) - 1)).fdiv 7 = 0 from by decide,
            show (diatonicEntry (((7 : Int) - 1).emod 7)).2 = 11 from by decide,
            show (diatonicEntry (1 : Int)).2 = 2 from by decide]
          omega
      · refine ⟨_, _, (num - 1) / 7 + 1, hinv,
          mkInterval_eq_ok_minus (jsQualityTest_rep_A t.length) (by norm_num)
            (by rintro (⟨_, hX⟩ | ⟨_, hX⟩ | ⟨_, hX⟩) <;>
              exact absurd hX (rep_succ_ne_single _ (by decide)))
            (((t.length : Int) + 1))
            (by rw [show (diatonicEntry (((7 : Int) - 1).emod 7)).1 = 'M' from by decide]
                exact q2sd_M_rep_A t.length), ?_, ?_⟩
        · dsimp only
          omega
        · dsimp only
          simp only [show (((7 : Int) - 1)).fdiv 7 = 0 from by decide,
            show (diatonicEntry (((7 : Int) - 1).emod 7)).2 = 11 from by decide,
            show (diatonicEntry (1 : Int)).2 = 2 from by decide]
          omega
    · have hn1 : num ≠ 1 := by omega
      have hNl : 9 - jsmod num 7 2 = 6 := by rw [jsmod_off2, emod_eq_mod]; omega
      rw [if_neg hn1, hNl]
      have hinv : invertQuality q = .ok ⟨List.replicate (t.length + 1) 'A'⟩ := by
        unfold invertQuality
        rw [ht]
        rfl
      rcases hs with ⟨rfl, rfl⟩ | ⟨rfl, rfl⟩
      · refine ⟨_, _, (num - 1) / 7 + 1, hinv,
          mkInterval_eq_ok_plus (jsQualityTest_rep_A t.length) (by norm_num)
            (by rintro (⟨_, hX⟩ | ⟨_, hX⟩ | ⟨_, hX⟩) <;>
              exact absurd hX (rep_succ_ne_single _ (by decide)))
            (((t.length : Int) + 1))
            (by rw [show (diatonicEntry (((6 : Int) - 1).emod 7)).1 = 'M' from by decide]
                exact q2sd_M_rep_A t.length), ?_, ?_⟩
        · dsimp only
          omega
        · dsimp only
          simp only [show (((6 : Int) - 1)).fdiv 7 = 0 from by decide,
            show (diatonicEntry (((6 : Int) - 1).emod 7)).2 = 9 from by decide,
            show (diatonicEntry (2 : Int)).2 = 4 from by decide]
          omega
      · refine ⟨_, _, (num - 1) / 7 + 1, hinv,
          mkInterval_eq_ok_minus (jsQualityTest_rep_A t.length) (by norm_num)
            (by rintro (⟨_, hX⟩ | ⟨_, hX⟩ | ⟨_, hX⟩) <;>
              exact absurd hX (rep_succ_ne_single _ (by decide)))
            (((t.length : Int) + 1))
            (by rw [show (diatonicEntry (((6 : Int) - 1).emod 7)).1 = 'M' from by decide]
                exact q2sd_M_rep_A t.length), ?_, ?_⟩
        · dsimp only
          omega
        · dsimp only
          simp only [show (((6 : Int) - 1)).fdiv 7 = 0 from by decide,
            show (diatonicEntry (((6 : Int) - 1).emod 7)).2 = 9 from by decide,
            show (diatonicEntry (2 : Int)).2 = 4 from by decide]
          omega
    · exact absurd hmt (by decide)
    · exact absurd hmt (by decide)
    · have hn1 : num ≠ 1 := by omega
      have hNl : 9 - jsmod num 7 2 = 3 := by rw [jsmod_off2, emod_eq_mod]; omega
      rw [if_neg hn1, hNl]
      have hinv : invertQuality q = .ok ⟨List.replicate (t.length + 1) 'A'⟩ := by
        unfold invertQuality
        rw [ht]
        rfl
      rcases hs with ⟨rfl, rfl⟩ | ⟨rfl, rfl⟩
      · refine ⟨_, _, (num - 1) / 7 + 1, hinv,
          mkInterval_eq_ok_plus (jsQualityTest_rep_A t.length) (by norm_num)
            (by rintro (⟨_, hX⟩ | ⟨_, hX⟩ | ⟨_, hX⟩) <;>
              exact absurd hX (rep_succ_ne_single _ (by decide)))
            (((t.length : Int) + 1))
            (by rw [show (diatonicEntry (((3 : Int) - 1).emod 7)).1 = 'M' from by decide]
                exact q2sd_M_rep_A t.length), ?_, ?_⟩
        · dsimp only
          omega
        · dsimp only
          simp only [show (((3 : Int) - 1)).fdiv 7 = 0 from by decide,
            show (diatonicEntry (((3 : Int) - 1).emod 7)).2 = 4 from by decide,
            show (diatonicEntry (5 : Int)).2 = 9 from by decide]
          omega
      · refine ⟨_, _, (num - 1) / 7 + 1, hinv,
          mkInterval_eq_ok_minus (jsQualityTest_rep_A t.length) (by norm_num)
            (by rintro (⟨_, hX⟩ | ⟨_, hX⟩ | ⟨_, hX⟩) <;>
              exact absurd hX (rep_succ_ne_single _ (by decide)))
            (((t.length : Int) + 1))
            (by rw [show (diatonicEntry (((3 : Int) - 1).emod 7)).1 = 'M' from by decide]
                exact q2sd_M_rep_A t.length), ?_, ?_⟩
        · dsimp only
          omega
        · dsimp only
          simp only [show (((3 : Int) - 1)).fdiv 7 = 0 from by decide,
            show (diatonicEntry (((3 : Int) - 1).emod 7)).2 = 4 from by decide,
            show (diatonicEntry (5 : Int)).2 = 9 from by decide]
          omega
    · have hn1 : num ≠ 1 := by omega
      have hNl : 9 - jsmod num 7 2 = 2 := by rw [jsmod_off2, emod_eq_mod]; omega
      rw [if_neg hn1, hNl]
      have hinv : invertQuality q = .ok ⟨List.replicate (t.length + 1) 'A'⟩ := by
        unfold invertQuality
        rw [ht]
        rfl
      rcases hs with ⟨rfl, rfl⟩ | ⟨rfl, rfl⟩
      · refine ⟨_, _, (num - 1) / 7 + 1, hinv,
          mkInterval_eq_ok_plus (jsQualityTest_rep_A t.length) (by norm_num)
            (by rintro (⟨_, hX⟩ | ⟨_, hX⟩ | ⟨_, hX⟩) <;>
              exact absurd hX (rep_succ_ne_single _ (by decide)))
            (((t.length : Int) + 1))
            (by rw [show (diatonicEntry (((2 : Int) - 1).emod 7)).1 = 'M' from by decide]
                exact q2sd_M_rep_A t.length), ?_, ?_⟩
        · dsimp only
          omega
        · dsimp only
          simp only [show (((2 : Int) - 1)).fdiv 7 = 0 from by decide,
            show (diatonicEntry (((2 : Int) - 1).emod 7)).2 = 2 from by decide,
            show (diatonicEntry (6 : Int)).2 = 11 from by decide]
          omega
      · refine ⟨_, _, (num - 1) / 7 + 1, hinv,
          mkInterval_eq_ok_minus (jsQualityTest_rep_A t.length) (by norm_num)
            (by rintro (⟨_, hX⟩ | ⟨_, hX⟩ | ⟨_, hX⟩) <;>
              exact absurd hX (rep_succ_ne_single _ (by decide)))
            (((t.length : Int) + 1))
            (by rw [show (diatonicEntry (((2 : Int) - 1).emod 7)).1 = 'M' from by decide]
                exact q2sd_M_rep_A t.length), ?_, ?_⟩
        · dsimp only
          omega
        · dsimp only
          simp only [show (((2 : Int) - 1)).fdiv 7 = 0 from by decide,
            show (diatonicEntry (((2 : Int) - 1).emod 7)).2 = 2 from by decide,
            show (diatonicEntry (6 : Int)).2 = 11 from by decide]
          omega

theorem letterFromIdx_diatonicIdx (l : Letter) : letterFromIdx (diatonicIdx l) = l := by
  cases l <;> rfl

/-- Composing two transpositions whose diatonic and chromatic steps sum to
`7 t` and `12 t` returns to the same letter and accidentals, shifting the
octave by `t`. -/
theorem transpose_transpose (i i' : Interval) (t : Int)
    (hds : i.diatonicSteps + i'.diatonicSteps = 7 * t)
    (hcs : i.chromaticSteps + i'.chromaticSteps = 12 * t)
    (n : Note) :
    (n.transpose i).transpose i'
      = { letter := n.letter, acc := n.acc, octave := n.octave.map (· + t) } := by
  have hD : 0 ≤ diatonicIdx n.letter ∧ diatonicIdx n.letter < 7 := by
    cases n.letter <;> exact ⟨by decide, by decide⟩
  have hfd7 : ∀ a : Int, a.fdiv 7 = a / 7 := fun a => fdiv_eq_ediv_of_pos a 7 (by norm_num)
  have hjm : ∀ a : Int, jsmod a 7 0 = a % 7 := fun a => jsmod_eq_emod a 7 (by norm_num)
  simp only [Note.transpose, Note.diatonicOffset, Note.chromaticOffset]
  have hd1 : diatonicIdx (letterFromIdx (jsmod (diatonicIdx n.letter + i.diatonicSteps) 7 0))
      = (diatonicIdx n.letter + i.diatonicSteps) % 7 := by
    rw [hjm]
    exact diatonicIdx_letterFromIdx _ (Int.emod_nonneg _ (by norm_num))
      (Int.emod_lt_of_pos _ (by norm_num))
  rw [hd1]
  have hlet2 : letterFromIdx
      (jsmod ((diatonicIdx n.letter + i.diatonicSteps) % 7 + i'.diatonicSteps) 7 0)
      = n.letter := by
    rw [hjm]
    have hkey : ((diatonicIdx n.letter + i.diatonicSteps) % 7 + i'.diatonicSteps) % 7
        = diatonicIdx n.letter := by
      omega
    rw [hkey, letterFromIdx_diatonicIdx]
  rw [hlet2]
  simp only [Note.mk.injEq]
  refine ⟨trivial, ?_, ?_⟩
  · simp only [hjm, hfd7]
    omega
  · cases ho : n.octave with
    | none => rfl
    | some o =>
      simp only [Option.map_some', Option.some.injEq, hjm, hfd7]
      omega

/-- C4: for every constructible interval `i`, inverting succeeds, the steps
of `i` and its inversion sum to a whole number of octaves (`7 t` diatonic
and `12 t` chromatic steps for the same `t`), and transposing any note by
`i` and then by the inversion returns the very same letter and accidentals
with the octave shifted by `t`; in particular a pitch class returns to an
enharmonically equal (indeed identical) pitch class, and a pitch keeps its
letter-class while its chromatic position moves by exactly `12 t`. -/
theorem transpose_invert_roundtrip (q : String) (num : Int) (sg : String) (i : Interval)
    (h : mkInterval q num sg = .ok i) :
    ∃ i' t, i.invert = .ok i'
      ∧ i.diatonicSteps + i'.diatonicSteps = 7 * t
      ∧ i.chromaticSteps + i'.chromaticSteps = 12 * t
      ∧ ∀ n : Note,
          (n.transpose i).transpose i'
            = { letter := n.letter, acc := n.acc, octave := n.octave.map (· + t) }
          ∧ (n.octave = none →
              Note.isEnharmonic ((n.transpose i).transpose i') n = true) := by
  have hEnh : ∀ m : Note, m.octave = none → Note.isEnharmonic m m = true := by
    intro m hm
    simp [Note.isEnharmonic, Note.distance, Note.octaveDiff, Note.isPitchClass,
      Note.isPitch, hm, lt_irrefl]
  obtain ⟨hq, hnum, hsg, qd, hqd, hi⟩ := mkInterval_ok_elim h
  rcases hsg with rfl | rfl
  · rw [show (if ("+" : String) = "+" then (1 : Int) else -1) = 1 from by decide] at hi
    simp only [one_mul] at hi
    obtain ⟨q', i', K, hinvq, hmk, hds, hcs⟩ :=
      invert_core q num "+" 1 (Or.inl ⟨rfl, rfl⟩) hnum qd hqd
    have hinv : i.invert = .ok i' := by
      rw [hi]
      unfold Interval.invert
      dsimp only
      rw [hinvq]
      rw [show (if (1 : Int) = 1 then "+" else "-") = "+" from rfl]
      exact hmk
    have hds2 : i.diatonicSteps + i'.diatonicSteps = 7 * K := by
      rw [hi]
      dsimp only
      omega
    have hcs2 : i.chromaticSteps + i'.chromaticSteps = 12 * K := by
      rw [hi]
      dsimp only
      omega
    refine ⟨i', K, hinv, hds2, hcs2, fun n => ⟨transpose_transpose i i' K hds2 hcs2 n, ?_⟩⟩
    intro hoc
    rw [transpose_transpose i i' K hds2 hcs2 n]
    have hnn : ({ letter := n.letter, acc := n.acc, octave := n.octave.map (· + K) } : Note)
        = n := by
      cases n with
      | mk l a o => simp_all
    rw [hnn]
    exact hEnh n hoc
  · rw [show (if ("-" : String) = "+" then (1 : Int) else -1) = -1 from by decide] at hi
    obtain ⟨q', i', K, hinvq, hmk, hds, hcs⟩ :=
      invert_core q num "-" (-1) (Or.inr ⟨rfl, rfl⟩) hnum qd hqd
    have hinv : i.invert = .ok i' := by
      rw [hi]
      unfold Interval.invert
      dsimp only
      rw [hinvq]
      rw [show (if (-1 : Int) = 1 then "+" else "-") = "-" from rfl]
      exact hmk
    have hds2 : i.diatonicSteps + i'.diatonicSteps = 7 * (-K) := by
      rw [hi]
      dsimp only
      omega
    have hcs2 : i.chromaticSteps + i'.chromaticSteps = 12 * (-K) := by
      rw [hi]
      dsimp only
      omega
    refine ⟨i', -K, hinv, hds2, hcs2,
      fun n => ⟨transpose_transpose i i' (-K) hds2 hcs2 n, ?_⟩⟩
    intro hoc
    rw [transpose_transpose i i' (-K) hds2 hcs2 n]
    have hnn : ({ letter := n.letter, acc := n.acc, octave := n.octave.map (· + -K) } : Note)
        = n := by
      cases n with
      | mk l a o => simp_all
    rw [hnn]
    exact hEnh n hoc

/-- Witness for C4: transposing `E#4` by `M3` and then by its inversion `m6`
gives `E#5`, one octave up. -/
theorem transpose_invert_roundtrip_witness :
    mkInterval "M" 3 "+"
      = Except.ok { quality := "M", number := 3, sign := 1,
                    diatonicSteps := 2, chromaticSteps := 4 }
    ∧ Note.transpose
        (Note.transpose { letter := .E, acc := 1, octave := some 4 }
          { quality := "M", number := 3, sign := 1, diatonicSteps := 2, chromaticSteps := 4 })
        { quality := "m", number := 6, sign := 1, diatonicSteps := 5, chromaticSteps := 8 }
      = { letter := .E, acc := 1, octave := some 5 } := by
  constructor
  · rfl
  · obtain ⟨i', t, h1, h2, h3, h4⟩ :=
      transpose_invert_roundtrip "M" 3 "+"
        { quality := "M", number := 3, sign := 1, diatonicSteps := 2, chromaticSteps := 4 } rfl
    have hx : Interval.invert
        ({ quality := "M", number := 3, sign := 1,
           diatonicSteps := 2, chromaticSteps := 4 } : Interval)
        = .ok { quality := "m", number := 6, sign := 1,
                diatonicSteps := 5, chromaticSteps := 8 } := by decide
    rw [hx] at h1
    have hi' : i' = { quality := "m", number := 6, sign := 1,
                      diatonicSteps := 5, chromaticSteps := 8 } :=
      (Except.ok.inj h1).symm
    subst hi'
    have ht : t = 1 := by
      dsimp only at h2
      omega
    subst ht
    exact (h4 { letter := .E, acc := 1, octave := some 4 }).1

/-! ### C8: parse / print round trip for intervals -/

/-- C8 counterexample: `Parse` accepts a number with a leading zero, and
`toString` prints it without the zero, so the round trip is not the
identity on `"M03"`. -/
theorem fromStr_leading_zero_not_identity :
    (Interval.fromStr "M03").map Interval.toStr = .ok "M3"
    ∧ ("M3" : String) ≠ "M03" := by
  exact ⟨by rfl, by decide⟩

/-- The sign normalization step of `toString`-vs-`Parse`: a leading `+` is
dropped, everything else kept. -/
def dropPlus : List Char → List Char
  | '+' :: t => t
  | l => l

/-- The normal form that `toString` reproduces: the leading `+` dropped and
the leading zeros of the trailing digit run dropped. -/
def normalizeIntervalStr (s : String) : String :=
  let l := dropPlus s.data
  ⟨l.takeWhile (fun c => !(isDigitCh c))
    ++ ((l.dropWhile (fun c => !(isDigitCh c))).dropWhile (· == '0'))⟩

theorem dropPlus_cons_ne {c : Char} (xs : List Char) (h : c ≠ '+') :
    dropPlus (c :: xs) = c :: xs := by
  unfold dropPlus
  split
  · rename_i t heq
    exact absurd (List.cons.injEq .. ▸ heq).1 h
  · rfl

theorem decValue_append (l : List Char) (c : Char) :
    decValue (l ++ [c]) = 10 * decValue l + (digitVal? c).getD 0 := by
  simp [decValue, List.foldl_append]

theorem foldl_step_mono (l : List Char) (a : Nat) :
    a ≤ l.foldl (fun a c => 10 * a + (digitVal? c).getD 0) a := by
  induction l generalizing a with
  | nil => exact le_refl a
  | cons c t ih =>
    refine le_trans ?_ (ih (10 * a + (digitVal? c).getD 0))
    omega

theorem digitVal?_eq_zero {c : Char} (h : digitVal? c = some 0) : c = '0' := by
  unfold digitVal? at h
  split at h <;> simp_all

theorem digitVal?_lt {c : Char} {v : Nat} (h : digitVal? c = some v) : v < 10 := by
  unfold digitVal? at h
  split at h <;> simp_all <;> omega

theorem digitChar_digitVal {c : Char} {v : Nat} (h : digitVal? c = some v) :
    digitChar v = c := by
  unfold digitVal? at h
  split at h <;> simp_all <;> subst h <;> rfl

theorem decValue_cons_pos {c : Char} (t : List Char)
    (hc : isDigitCh c = true) (h0 : c ≠ '0') : 1 ≤ decValue (c :: t) := by
  rcases hv : digitVal? c with _ | v
  · rw [isDigitCh, hv] at hc
    exact absurd hc (by simp)
  have hv1 : 1 ≤ v := by
    rcases Nat.eq_zero_or_pos v with rfl | h
    · exact absurd (digitVal?_eq_zero hv) h0
    · exact h
  calc 1 ≤ v := hv1
    _ = 10 * 0 + (digitVal? c).getD 0 := by rw [hv]; simp
    _ ≤ decValue (c :: t) := foldl_step_mono t _

theorem decValue_dropWhile_zero (l : List Char) :
    decValue (l.dropWhile (· == '0')) = decValue l := by
  induction l with
  | nil => rfl
  | cons c t ih =>
    by_cases hc : c = '0'
    · subst hc
      rw [List.dropWhile_cons_of_pos (by rfl), ih]
      show decValue t = List.foldl _ (10 * 0 + (digitVal? '0').getD 0) t
      rfl
    · rw [List.dropWhile_cons_of_neg (by simpa using hc)]

theorem dropWhile_head_not (p : Char → Bool) (l : List Char) :
    ∀ c rest, l.dropWhile p = c :: rest → p c = false := by
  induction l with
  | nil =>
    intro c rest h
    exact absurd h (by simp)
  | cons a t ih =>
    intro c rest h
    by_cases ha : p a
    · rw [List.dropWhile_cons_of_pos ha] at h
      exact ih c rest h
    · rw [List.dropWhile_cons_of_neg ha] at h
      injection h with h1 h2
      subst h1
      simpa using ha

theorem natToDec_decValue (l : List Char) (hd : ∀ c ∈ l, isDigitCh c = true)
    (hne : l ≠ []) (h0 : l.head? ≠ some '0') :
    natToDec (decValue l) = l := by
  induction l using List.reverseRecOn with
  | nil => exact absurd rfl hne
  | append_singleton f c ih =>
    rcases hv : digitVal? c with _ | v
    · have := hd c (by simp)
      rw [isDigitCh, hv] at this
      exact absurd this (by simp)
    rcases eq_or_ne f [] with rfl | hf
    · have hval : decValue ([] ++ [c]) = v := by
        rw [decValue_append, hv]
        simp [decValue]
      rw [hval]
      rw [natToDec_step, if_pos (digitVal?_lt hv), digitChar_digitVal hv]
      rfl
    · obtain ⟨hc, tl, rfl⟩ : ∃ hc tl, f = hc :: tl := by
        rcases f with _ | ⟨hc, tl⟩
        · exact absurd rfl hf
        · exact ⟨hc, tl, rfl⟩
      have hh0 : hc ≠ '0' := by
        intro hcz
        subst hcz
        exact h0 rfl
      have hhd : isDigitCh hc = true := hd hc (by simp)
      have hpos : 1 ≤ decValue (hc :: tl) := decValue_cons_pos tl hhd hh0
      have hval := decValue_append (hc :: tl) c
      rw [hv] at hval
      have hbig : ¬ decValue ((hc :: tl) ++ [c]) < 10 := by
        rw [hval]
        simp only [Option.getD_some]
        omega
      rw [natToDec_step, if_neg hbig]
      have hdiv : decValue ((hc :: tl) ++ [c]) / 10 = decValue (hc :: tl) := by
        rw [hval]
        simp only [Option.getD_some]
        have := digitVal?_lt hv
        omega
      have hmod : decValue ((hc :: tl) ++ [c]) % 10 = v := by
        rw [hval]
        simp only [Option.getD_some]
        have := digitVal?_lt hv
        omega
      rw [hdiv, hmod, digitChar_digitVal hv,
        ih (fun x hx => hd x (List.mem_append_left [c] hx)) (by simp) h0]

theorem takeWhile_append_of_all (p : Char → Bool) (l₁ l₂ : List Char)
    (h : ∀ c ∈ l₁, p c = true) :
    (l₁ ++ l₂).takeWhile p = l₁ ++ l₂.takeWhile p := by
  induction l₁ with
  | nil => simp
  | cons c t ih =>
    rw [List.cons_append, List.takeWhile_cons_of_pos (h c (by simp)),
      ih (fun x hx => h x (by simp [hx]))]
    rfl

theorem dropWhile_append_of_all (p : Char → Bool) (l₁ l₂ : List Char)
    (h : ∀ c ∈ l₁, p c = true) :
    (l₁ ++ l₂).dropWhile p = l₂.dropWhile p := by
  induction l₁ with
  | nil => simp
  | cons c t ih =>
    rw [List.cons_append, List.dropWhile_cons_of_pos (h c (by simp)),
      ih (fun x hx => h x (by simp [hx]))]

theorem splitSign_spec (l : List Char) :
    ((splitSign l).1 = "+" ∧ (l = (splitSign l).2 ∨ l = '+' :: (splitSign l).2))
    ∨ ((splitSign l).1 = "-" ∧ l = '-' :: (splitSign l).2) := by
  unfold splitSign
  split
  · exact Or.inl ⟨rfl, Or.inr rfl⟩
  · exact Or.inr ⟨rfl, rfl⟩
  · exact Or.inl ⟨rfl, Or.inl rfl⟩

theorem splitQuality_spec {rest : List Char} {q : String} {ds : List Char}
    (h : splitQuality rest = some (q, ds)) :
    rest = q.data ++ ds
    ∧ (∃ c0 t0, q.data = c0 :: t0
        ∧ (c0 = 'P' ∨ c0 = 'M' ∨ c0 = 'm' ∨ c0 = 'A' ∨ c0 = 'd'))
    ∧ ∀ c ∈ q.data, isDigitCh c = false := by
  unfold splitQuality at h
  split at h
  · rw [Option.some.injEq, Prod.mk.injEq] at h
    obtain ⟨h1, h2⟩ := h
    subst h1
    subst h2
    exact ⟨rfl, ⟨'P', [], rfl, by tauto⟩, by decide⟩
  · rw [Option.some.injEq, Prod.mk.injEq] at h
    obtain ⟨h1, h2⟩ := h
    subst h1
    subst h2
    exact ⟨rfl, ⟨'M', [], rfl, by tauto⟩, by decide⟩
  · rw [Option.some.injEq, Prod.mk.injEq] at h
    obtain ⟨h1, h2⟩ := h
    subst h1
    subst h2
    exact ⟨rfl, ⟨'m', [], rfl, by tauto⟩, by decide⟩
  · rename_i tail
    rw [Option.some.injEq, Prod.mk.injEq] at h
    obtain ⟨h1, h2⟩ := h
    subst h1
    subst h2
    refine ⟨by rw [data_mk]; exact (List.takeWhile_append_dropWhile ..).symm, ?_, ?_⟩
    · exact ⟨'A', ('A' :: tail).takeWhile (· == 'A') |>.tail,
        by rw [data_mk, List.takeWhile_cons_of_pos (by rfl)]; rfl, by tauto⟩
    · intro c hc
      rw [data_mk] at hc
      have := List.mem_takeWhile_imp hc
      rw [show c = 'A' from by simpa using this]
      decide
  · rename_i tail
    rw [Option.some.injEq, Prod.mk.injEq] at h
    obtain ⟨h1, h2⟩ := h
    subst h1
    subst h2
    refine ⟨by rw [data_mk]; exact (List.takeWhile_append_dropWhile ..).symm, ?_, ?_⟩
    · exact ⟨'d', ('d' :: tail).takeWhile (· == 'd') |>.tail,
        by rw [data_mk, List.takeWhile_cons_of_pos (by rfl)]; rfl, by tauto⟩
    · intro c hc
      rw [data_mk] at hc
      have := List.mem_takeWhile_imp hc
      rw [show c = 'd' from by simpa using this]
      decide
  · exact absurd h (by simp)

theorem mem_dropWhile_imp_mem (p : Char → Bool) (l : List Char) (c : Char)
    (h : c ∈ l.dropWhile p) : c ∈ l := by
  induction l with
  | nil => simp at h
  | cons a t ih =>
    by_cases ha : p a
    · rw [List.dropWhile_cons_of_pos ha] at h
      exact List.mem_cons_of_mem a (ih h)
    · rw [List.dropWhile_cons_of_neg ha] at h
      exact h

theorem normalize_data (qd : List Char) (d0 : Char) (ds' : List Char)
    (hqdig : ∀ c ∈ qd, isDigitCh c = false)
    (hd0 : isDigitCh d0 = true) :
    (qd ++ d0 :: ds').takeWhile (fun c => !(isDigitCh c))
      ++ ((qd ++ d0 :: ds').dropWhile (fun c => !(isDigitCh c))).dropWhile (· == '0')
    = qd ++ (d0 :: ds').dropWhile (· == '0') := by
  rw [takeWhile_append_of_all _ qd _ (fun c hc => by rw [hqdig c hc]; rfl),
      dropWhile_append_of_all _ qd _ (fun c hc => by rw [hqdig c hc]; rfl),
      List.takeWhile_cons_of_neg (by rw [hd0]; decide),
      List.dropWhile_cons_of_neg (by rw [hd0]; decide)]
  simp

/-- C8 (amended): for every string `Parse` accepts, `toString` of the parsed
interval reproduces the input in normal form: the leading `+` is dropped,
the quality is kept character for character, and the number is printed
without the leading zeros of the input (the value is preserved).  For
inputs without a leading `+` and without leading zeros the round trip is
the identity. -/
theorem fromStr_toStr_normalized (s : String) (i : Interval)
    (h : Interval.fromStr s = .ok i) :
    Interval.toStr i = normalizeIntervalStr s := by
  set sg := (splitSign s.data).1 with hsgdef
  set rest := (splitSign s.data).2 with hrestdef
  unfold Interval.fromStr at h
  dsimp only at h
  rw [← hsgdef, ← hrestdef] at h
  rcases hsq : splitQuality rest with _ | ⟨q, ds⟩
  · rw [hsq] at h
    exact absurd h (by simp)
  rw [hsq] at h
  dsimp only at h
  by_cases hemp : ds.isEmpty
  · rw [if_pos hemp] at h
    exact absurd h (by simp)
  rw [if_neg hemp] at h
  by_cases hall : ds.all isDigitCh
  swap
  · rw [if_neg hall] at h
    exact absurd h (by simp)
  rw [if_pos hall] at h
  rcases hmk : mkInterval q ((decValue ds : Nat) : Int) sg with e | j
  · rw [hmk] at h
    exact absurd h (by simp)
  rw [hmk] at h
  have hji : Except.ok (ε := String) j = .ok i := h
  have hij : i = j := (Except.ok.inj hji).symm
  subst hij
  obtain ⟨hqt, hnum, hsg, qd, hqd, hj⟩ := mkInterval_ok_elim hmk
  obtain ⟨hrest, ⟨c0, t0, hq0, hc0⟩, hqdig⟩ := splitQuality_spec hsq
  have hdsdig : ∀ c ∈ ds, isDigitCh c = true := by
    rw [List.all_eq_true] at hall
    exact fun c hc => hall c hc
  have hdsne : ds ≠ [] := by
    intro hdn
    rw [hdn] at hemp
    exact hemp rfl
  obtain ⟨d0, ds', rfl⟩ : ∃ d0 ds', ds = d0 :: ds' := by
    rcases ds with _ | ⟨d0, ds'⟩
    · exact absurd rfl hdsne
    · exact ⟨d0, ds', rfl⟩
  have hval1 : 1 ≤ decValue (d0 :: ds') := by exact_mod_cast hnum
  have hd0 : isDigitCh d0 = true := hdsdig d0 (by simp)
  have hdzval := decValue_dropWhile_zero (d0 :: ds')
  have hdzne : (d0 :: ds').dropWhile (· == '0') ≠ [] := by
    intro hn
    rw [hn] at hdzval
    have hz : decValue ([] : List Char) = 0 := rfl
    omega
  obtain ⟨z0, zr, hz⟩ : ∃ z0 zr, (d0 :: ds').dropWhile (· == '0') = z0 :: zr := by
    rcases hzz : (d0 :: ds').dropWhile (· == '0') with _ | ⟨z0, zr⟩
    · exact absurd hzz hdzne
    · exact ⟨z0, zr, rfl⟩
  have hdzdig : ∀ c ∈ (d0 :: ds').dropWhile (· == '0'), isDigitCh c = true :=
    fun c hc => hdsdig c (mem_dropWhile_imp_mem _ _ c hc)
  have hdzhead : ((d0 :: ds').dropWhile (· == '0')).head? ≠ some '0' := by
    have hb := dropWhile_head_not (· == '0') (d0 :: ds') z0 zr hz
    rw [hz]
    simp only [List.head?_cons, ne_eq, Option.some.injEq]
    intro hz0
    rw [hz0] at hb
    simp at hb
  have hnat : natToDec (decValue (d0 :: ds')) = (d0 :: ds').dropWhile (· == '0') := by
    rw [← hdzval]
    exact natToDec_decValue _ hdzdig hdzne hdzhead
  have hint : intDec ((decValue (d0 :: ds') : Nat) : Int)
      = natToDec (decValue (d0 :: ds')) := by
    unfold intDec
    rw [if_neg (by omega), Int.toNat_natCast]
  rw [hj]
  unfold Interval.toStr
  dsimp only
  rw [hint, hnat]
  unfold normalizeIntervalStr
  dsimp only
  rcases splitSign_spec s.data with ⟨hsg1, hl⟩ | ⟨hsg1, hl⟩
  · rw [← hsgdef] at hsg1
    rw [← hrestdef] at hl
    rw [hsg1]
    rw [show (if ("+" : String) = "+" then (1 : Int) else -1) = 1 from by decide,
      if_neg (by decide)]
    rcases hl with hl | hl
    · have hc0p : c0 ≠ '+' := by rcases hc0 with rfl | rfl | rfl | rfl | rfl <;> decide
      have hdp : dropPlus s.data = q.data ++ (d0 :: ds') := by
        rw [hl, hrest, hq0, List.cons_append, dropPlus_cons_ne _ hc0p, ← List.cons_append,
          ← hq0]
      rw [hdp]
      refine congrArg String.mk ?_
      rw [normalize_data q.data d0 ds' hqdig hd0]
      simp
    · have hdp : dropPlus s.data = q.data ++ (d0 :: ds') := by
        rw [hl, hrest]
        rfl
      rw [hdp]
      refine congrArg String.mk ?_
      rw [normalize_data q.data d0 ds' hqdig hd0]
      simp
  · rw [← hsgdef] at hsg1
    rw [← hrestdef] at hl
    rw [hsg1]
    rw [show (if ("-" : String) = "+" then (1 : Int) else -1) = -1 from by decide,
      if_pos rfl]
    have hdp : dropPlus s.data = '-' :: (q.data ++ (d0 :: ds')) := by
      rw [hl, hrest, dropPlus_cons_ne _ (by decide)]
    rw [hdp]
    refine congrArg String.mk ?_
    simp only [List.takeWhile_cons, List.dropWhile_cons]
    rw [show isDigitCh '-' = false from by decide]
    simp only [Bool.not_false, if_true, List.cons_append]
    rw [normalize_data q.data d0 ds' hqdig hd0]
    simp [List.dropWhile_cons]

theorem fromStr_toStr_normalized_witness :
    Interval.fromStr "+d44" = .ok ⟨"d", 44, 1, 43, 72⟩
      ∧ Interval.toStr ⟨"d", 44, 1, 43, 72⟩ = normalizeIntervalStr "+d44"
      ∧ normalizeIntervalStr "+d44" = "d44" :=
  ⟨rfl, fromStr_toStr_normalized "+d44" ⟨"d", 44, 1, 43, 72⟩ rfl, rfl⟩

end Kamasi
